import Mathlib

/-!
Verification of the notedeck backend (src-tauri) against its specification.

This file shallowly embeds the data model and the operations of the Rust
sources (`models.rs`, `commands.rs`, `db.rs`, `api.rs`, `image_cache.rs`,
`streaming.rs`) as executable Lean definitions and proves the specified
properties about them.  Machine integers are modelled as `Nat`/`Int`,
strings as Lean `String` (a list of unicode scalar values, with UTF-8 byte
sizes computed explicitly where the code counts bytes), SQL tables as lists
of row records, hash maps as association lists with unique keys, and the
concurrent single-flight image fetch as an explicitly interleaved
transition system.
-/

namespace Notedeck

/-- Error taxonomy from `error.rs` (`NoteDeckError`).  Variants that wrap a
foreign error type (`rusqlite::Error`, `reqwest::Error`, `serde_json::Error`)
carry that error's display string. -/
inductive NoteDeckError where
  | Database (msg : String)
  | Network (msg : String)
  | Json (msg : String)
  | AccountNotFound (id : String)
  | Api (endpoint : String) (status : Nat) (message : String)
  | Auth (msg : String)
  | WebSocket (msg : String)
  | NoConnection (id : String)
  | ConnectionClosed
  | InvalidInput (msg : String)
  | Keychain (msg : String)
  deriving Repr, DecidableEq

/-- Minimal JSON value model (`serde_json::Value`).  Arrays and objects are
not needed by any claim proved here: the only inspection the embedded code
performs on an unknown value is `Value::as_bool`, which distinguishes
booleans from everything else, so all non-boolean shapes are represented by
the non-boolean constructors below. -/
inductive JVal where
  | null
  | bool (b : Bool)
  | str (s : String)
  | num (n : Int)
  deriving Repr, DecidableEq

/-- Model of `serde_json::Value::as_bool`. -/
def JVal.as_bool : JVal → Option Bool
  | .bool b => some b
  | _ => none

-- ---------------------------------------------------------------------------
-- models.rs: Account / AccountPublic (claim C1)
-- ---------------------------------------------------------------------------

/-- The `Account` struct from `models.rs` (token included). -/
structure Account where
  id : String
  host : String
  token : String
  user_id : String
  username : String
  display_name : Option String
  avatar_url : Option String
  software : String
  deriving Repr, DecidableEq

/-- The token-free `AccountPublic` struct from `models.rs`.  It has no
`token` attribute. -/
structure AccountPublic where
  id : String
  host : String
  user_id : String
  username : String
  display_name : Option String
  avatar_url : Option String
  software : String
  deriving Repr, DecidableEq

/-- The `From<&Account> for AccountPublic` conversion from `models.rs`. -/
def AccountPublic.fromAccount (a : Account) : AccountPublic :=
  { id := a.id
    host := a.host
    user_id := a.user_id
    username := a.username
    display_name := a.display_name
    avatar_url := a.avatar_url
    software := a.software }

/-- Serde serialization of an `Option<String>` field (no
`skip_serializing_if` on `AccountPublic`, so `None` becomes JSON null). -/
def serializeOptStr : Option String → JVal
  | none => JVal.null
  | some s => JVal.str s

/-- Serde serialization of `AccountPublic` as the ordered list of JSON
object fields.  Field names follow `#[serde(rename_all = "camelCase")]`. -/
def serializeAccountPublic (p : AccountPublic) : List (String × JVal) :=
  [ ("id", JVal.str p.id)
  , ("host", JVal.str p.host)
  , ("userId", JVal.str p.user_id)
  , ("username", JVal.str p.username)
  , ("displayName", serializeOptStr p.display_name)
  , ("avatarUrl", serializeOptStr p.avatar_url)
  , ("software", serializeOptStr (some p.software))
  ]

/-- All strings that occur as values in a serialized JSON object. -/
def jsonStringValues (fields : List (String × JVal)) : List String :=
  fields.filterMap fun kv =>
    match kv.2 with
    | JVal.str s => some s
    | _ => none

/-- The `load_accounts` command (`commands.rs`) and the gateway route
`GET /api/accounts` (`http_server.rs`, `list_accounts`): both map the stored
accounts through `AccountPublic::from`. -/
def load_accounts (accounts : List Account) : List AccountPublic :=
  accounts.map AccountPublic.fromAccount

/-- The seven public string fields of an account (the values that
`AccountPublic` exposes). -/
def accountPublicStrings (a : Account) : List String :=
  [a.id, a.host, a.user_id, a.username] ++ a.display_name.toList ++
    a.avatar_url.toList ++ [a.software]

-- ---------------------------------------------------------------------------
-- commands.rs: AuthSessionTracker (claim C5)
-- ---------------------------------------------------------------------------

/-- Fifteen minutes, from `commands.rs` (`AUTH_SESSION_TTL_SECS`). -/
def AUTH_SESSION_TTL_SECS : Nat := 900

/-- One tracked MiAuth session: `session_id -> (host, created_at)`.
`created` is the registration time in seconds on a monotone clock
(`std::time::Instant`). -/
structure AuthEntry where
  session_id : String
  host : String
  created : Nat
  deriving Repr, DecidableEq

/-- The tracker's `sessions` map, modelled as an association list with
unique `session_id` keys (a `HashMap` in the source). -/
abbrev TrackerState := List AuthEntry

/-- Membership of a session id in the tracker state. -/
def trackerHas (st : TrackerState) (sid : String) : Bool :=
  st.any fun e => e.session_id == sid

/-- `AuthSessionTracker::register`: purge entries whose elapsed time has
reached the TTL, then insert (replacing any entry with the same id, as
`HashMap::insert` does).  `now` is the current instant in seconds. -/
def authRegister (st : TrackerState) (sid host : String) (now : Nat) : TrackerState :=
  ((st.filter fun e => now - e.created < AUTH_SESSION_TTL_SECS).filter
    fun e => e.session_id ≠ sid) ++ [⟨sid, host, now⟩]

/-- `AuthSessionTracker::consume`: remove the entry (in every case), then
reject if it was missing, expired (elapsed at least the TTL), or the host
differs; accept otherwise. -/
def authConsume (st : TrackerState) (sid host : String) (now : Nat) :
    Except NoteDeckError Unit × TrackerState :=
  match st.find? (fun e => e.session_id == sid) with
  | none => (Except.error (NoteDeckError.Auth "Invalid or already consumed auth session"), st)
  | some e =>
      let st' := st.filter fun x => x.session_id ≠ sid
      if AUTH_SESSION_TTL_SECS ≤ now - e.created then
        (Except.error (NoteDeckError.Auth "Auth session expired"), st')
      else if e.host ≠ host then
        (Except.error (NoteDeckError.Auth "Host mismatch"), st')
      else
        (Except.ok (), st')

/-- A timed operation on the tracker. -/
inductive AuthOp where
  | reg (sid host : String) (now : Nat)
  | con (sid host : String) (now : Nat)
  deriving Repr, DecidableEq

/-- Run a sequence of tracker operations and count the successful
`consume` calls for the session id `sid`. -/
def authSuccesses (st : TrackerState) (sid : String) : List AuthOp → Nat
  | [] => 0
  | AuthOp.reg s h n :: rest => authSuccesses (authRegister st s h n) sid rest
  | AuthOp.con s h n :: rest =>
      (if s = sid ∧ (authConsume st s h n).1.isOk then 1 else 0) +
        authSuccesses (authConsume st s h n).2 sid rest

/-- Count the `register` calls for session id `sid` in an operation list. -/
def authRegs (sid : String) : List AuthOp → Nat
  | [] => 0
  | AuthOp.reg s _ _ :: rest => (if s = sid then 1 else 0) + authRegs sid rest
  | AuthOp.con _ _ _ :: rest => authRegs sid rest

-- ---------------------------------------------------------------------------
-- db.rs: accounts table and upsert_account (claim C4)
-- ---------------------------------------------------------------------------

/-- Whether two account rows collide on the `UNIQUE(host, user_id)` key. -/
def accKeyMatch (r a : Account) : Bool :=
  r.host == a.host && r.user_id == a.user_id

/-- The row produced by the `ON CONFLICT(host, user_id) DO UPDATE SET`
clause of `Database::upsert_account`: `token`, `username`, `display_name`,
`avatar_url` and `software` are replaced from the excluded row, while `id`,
`host` and `user_id` of the existing row are untouched. -/
def mergeAccountRow (r a : Account) : Account :=
  { id := r.id
    host := r.host
    token := a.token
    user_id := r.user_id
    username := a.username
    display_name := a.display_name
    avatar_url := a.avatar_url
    software := a.software }

/-- `Database::upsert_account` over the accounts table (a list of rows in
rowid order).  A conflict on `(host, user_id)` triggers the DO UPDATE
clause; otherwise the row is inserted, unless its `id` collides with the
`id TEXT PRIMARY KEY` of another row, in which case SQLite raises a
uniqueness error and the table is unchanged. -/
def upsert_account (tbl : List Account) (a : Account) :
    Except NoteDeckError (List Account) :=
  if tbl.any (fun r => accKeyMatch r a) then
    Except.ok (tbl.map fun r => if accKeyMatch r a then mergeAccountRow r a else r)
  else if tbl.any (fun r => r.id == a.id) then
    Except.error (NoteDeckError.Database "UNIQUE constraint failed: accounts.id")
  else
    Except.ok (tbl ++ [a])

/-- Run a sequence of `upsert_account` calls; a call that returns an error
leaves the table unchanged (the SQL statement did not execute). -/
def runUpserts (tbl : List Account) : List Account → List Account
  | [] => tbl
  | a :: rest =>
      match upsert_account tbl a with
      | Except.ok tbl' => runUpserts tbl' rest
      | Except.error _ => runUpserts tbl rest

/-- No two rows of the table share the `(host, user_id)` pair. -/
def accountsKeyUnique (tbl : List Account) : Prop :=
  tbl.Pairwise fun r s => ¬(r.host = s.host ∧ r.user_id = s.user_id)

-- ---------------------------------------------------------------------------
-- commands.rs: validate_host (claim C2)
-- ---------------------------------------------------------------------------

/-- The Unicode `White_Space` property, which Rust `str::trim` strips. -/
def rustIsWhitespace (c : Char) : Bool :=
  let v := c.toNat
  decide ((9 ≤ v ∧ v ≤ 13) ∨ v = 32 ∨ v = 133 ∨ v = 160 ∨ v = 5760 ∨
    (8192 ≤ v ∧ v ≤ 8202) ∨ v = 8232 ∨ v = 8233 ∨ v = 8239 ∨ v = 8287 ∨ v = 12288)

/-- Rust `str::trim`: drop whitespace from both ends. -/
def rustTrim (l : List Char) : List Char :=
  ((l.dropWhile rustIsWhitespace).reverse.dropWhile rustIsWhitespace).reverse

/-- Rust `char::to_ascii_lowercase`: map `A`..`Z` to `a`..`z`, leave
everything else unchanged. -/
def asciiLowerChar (c : Char) : Char :=
  if 65 ≤ c.toNat ∧ c.toNat ≤ 90 then Char.ofNat (c.toNat + 32) else c

/-- `host.trim().to_ascii_lowercase()` from `validate_host`. -/
def normalizeHostChars (l : List Char) : List Char :=
  (rustTrim l).map asciiLowerChar

/-- Byte count of one scalar value in UTF-8 (Rust `String::len` counts
bytes). -/
def utf8Bytes (c : Char) : Nat :=
  if c.toNat ≤ 0x7F then 1
  else if c.toNat ≤ 0x7FF then 2
  else if c.toNat ≤ 0xFFFF then 3
  else 4

/-- UTF-8 byte length of a string given as scalar values. -/
def utf8Len (l : List Char) : Nat :=
  (l.map utf8Bytes).sum

/-- The character denylist `['/', '?', '#', '@', ' ', '\n', '\r']` of
`validate_host`. -/
def containsBadChar (l : List Char) : Bool :=
  l.any fun c => c ∈ ['/', '?', '#', '@', ' ', '\n', '\r']

/-- The `ssrf_blocked` starts-with denylist of `validate_host`. -/
def ssrfBlockedList : List String :=
  ["localhost", "127.", "0.0.0.0", "[::1]", "::1", "10.", "192.168.",
   "169.254.", "[fc", "[fd", "[fe80:", "[::ffff:"]

/-- Whether the normalized host starts with an `ssrf_blocked` entry. -/
def ssrfBlocked (l : List Char) : Bool :=
  ssrfBlockedList.any fun p => p.data.isPrefixOf l

/-- Model of Rust `str::parse::<u8>`: an optional leading `+`, then at
least one ASCII digit, with the value fitting in eight bits. -/
def parseU8 (l : List Char) : Option Nat :=
  let digits := match l with
    | '+' :: rest => rest
    | _ => l
  if digits.isEmpty then none
  else if digits.all (fun c => decide (48 ≤ c.toNat ∧ c.toNat ≤ 57)) then
    let v := digits.foldl (fun acc c => acc * 10 + (c.toNat - 48)) 0
    if v ≤ 255 then some v else none
  else none

/-- The `172.16.0.0/12` check of `validate_host`: strip the `172.` start,
take the next dot-separated segment, and block when it parses into
`16..=31`. -/
def octet172Blocked (l : List Char) : Bool :=
  if ("172.".data).isPrefixOf l then
    match parseU8 ((l.drop 4).takeWhile (fun c => c ≠ '.')) with
    | some n => decide (16 ≤ n ∧ n ≤ 31)
    | none => false
  else false

/-- The reserved ends-with denylist `.local` / `.internal` / `.localhost`
of `validate_host`. -/
def reservedSuffixBlocked (l : List Char) : Bool :=
  [".local", ".internal", ".localhost"].any fun p => p.data.isSuffixOf l

/-- `validate_host` from `commands.rs`: trim and ASCII-lowercase, then run
the checks in source order; return the normalized host on success. -/
def validate_host (s : String) : Except NoteDeckError String :=
  let n := normalizeHostChars s.data
  if n.isEmpty then
    Except.error (NoteDeckError.InvalidInput "Host cannot be empty")
  else if 253 < utf8Len n then
    Except.error (NoteDeckError.InvalidInput "Host too long")
  else if containsBadChar n then
    Except.error (NoteDeckError.InvalidInput ("Invalid host: " ++ String.mk n))
  else if ssrfBlocked n then
    Except.error (NoteDeckError.InvalidInput "Loopback and private addresses are not allowed")
  else if octet172Blocked n then
    Except.error (NoteDeckError.InvalidInput "Loopback and private addresses are not allowed")
  else if reservedSuffixBlocked n then
    Except.error (NoteDeckError.InvalidInput "Reserved domain names are not allowed")
  else
    Except.ok (String.mk n)

/-- The disjunction of all reject conditions of `validate_host`, on the
normalized host. -/
def hostRejectCond (n : List Char) : Prop :=
  n = [] ∨ 253 < utf8Len n ∨ containsBadChar n = true ∨ ssrfBlocked n = true ∨
    octet172Blocked n = true ∨ reservedSuffixBlocked n = true

/-- The public-domain alphabet `[a-z0-9.-]` of the acceptance half of the
claim. -/
def isHostChar (c : Char) : Bool :=
  let v := c.toNat
  decide ((97 ≤ v ∧ v ≤ 122) ∨ (48 ≤ v ∧ v ≤ 57) ∨ v = 46 ∨ v = 45)

-- ---------------------------------------------------------------------------
-- models.rs: raw and normalized notes (claims C9, C10, C8)
-- ---------------------------------------------------------------------------

/-- `AvatarDecoration` from `models.rs`.  The `f64` fields are carried as
raw JSON numbers (`JVal`), since no embedded operation inspects them. -/
structure AvatarDecoration where
  id : String
  url : String
  angle : Option JVal
  flip_h : Option Bool
  offset_x : Option JVal
  offset_y : Option JVal
  deriving Repr, DecidableEq

/-- `RawUser` from `models.rs`. -/
structure RawUser where
  id : String
  username : String
  host : Option String
  name : Option String
  avatar_url : Option String
  is_bot : Bool
  avatar_decorations : List AvatarDecoration
  deriving Repr, DecidableEq

/-- `NormalizedUser` from `models.rs`. -/
structure NormalizedUser where
  id : String
  username : String
  host : Option String
  name : Option String
  avatar_url : Option String
  is_bot : Bool
  avatar_decorations : List AvatarDecoration
  deriving Repr, DecidableEq

/-- The `From<RawUser> for NormalizedUser` conversion. -/
def RawUser.toNormalized (u : RawUser) : NormalizedUser :=
  { id := u.id
    username := u.username
    host := u.host
    name := u.name
    avatar_url := u.avatar_url
    is_bot := u.is_bot
    avatar_decorations := u.avatar_decorations }

/-- `RawPollChoice` / `NormalizedPollChoice` (identical shapes). -/
structure PollChoice where
  text : String
  votes : Int
  is_voted : Bool
  deriving Repr, DecidableEq

/-- `RawPoll` from `models.rs`. -/
structure RawPoll where
  choices : List PollChoice
  multiple : Bool
  expires_at : Option String
  deriving Repr, DecidableEq

/-- `NormalizedPoll` from `models.rs`. -/
structure NormalizedPoll where
  choices : List PollChoice
  multiple : Bool
  expires_at : Option String
  deriving Repr, DecidableEq

/-- The poll conversion inside `RawNote::normalize` (field-by-field copy of
each choice). -/
def RawPoll.toNormalized (p : RawPoll) : NormalizedPoll :=
  { choices := p.choices.map fun c => ⟨c.text, c.votes, c.is_voted⟩
    multiple := p.multiple
    expires_at := p.expires_at }

/-- `RawDriveFile` / `NormalizedDriveFile` (identical shapes, converted
field by field). -/
structure DriveFile where
  id : String
  name : String
  file_type : String
  url : String
  thumbnail_url : Option String
  size : Int
  is_sensitive : Bool
  deriving Repr, DecidableEq

/-- The non-recursive fields of `RawNote` from `models.rs`.  The recursive
`reply` / `renote` fields live in the `RawNote` inductive below (boxed
recursion).  `extra` is the `#[serde(flatten)]` catch-all map of
unrecognized top-level fields. -/
structure RawNoteCore where
  id : String
  created_at : String
  text : Option String
  cw : Option String
  user : RawUser
  visibility : String
  emojis : List (String × String)
  reaction_emojis : List (String × String)
  reactions : List (String × Int)
  my_reaction : Option String
  renote_count : Int
  replies_count : Int
  files : List DriveFile
  poll : Option RawPoll
  reply_id : Option String
  renote_id : Option String
  channel_id : Option String
  reaction_acceptance : Option String
  uri : Option String
  url : Option String
  updated_at : Option String
  local_only : Bool
  is_favorited : Bool
  extra : List (String × JVal)
  deriving Repr, DecidableEq

/-- `RawNote`: core fields plus the recursive `reply` / `renote` boxes. -/
inductive RawNote where
  | mk (core : RawNoteCore) (reply : Option RawNote) (renote : Option RawNote)

/-- The non-recursive fields of `NormalizedNote` from `models.rs`. -/
structure NormalizedNoteCore where
  id : String
  account_id : String
  server_host : String
  created_at : String
  text : Option String
  cw : Option String
  user : NormalizedUser
  visibility : String
  emojis : List (String × String)
  reaction_emojis : List (String × String)
  reactions : List (String × Int)
  my_reaction : Option String
  renote_count : Int
  replies_count : Int
  files : List DriveFile
  poll : Option NormalizedPoll
  reply_id : Option String
  renote_id : Option String
  channel_id : Option String
  reaction_acceptance : Option String
  uri : Option String
  url : Option String
  updated_at : Option String
  local_only : Bool
  is_favorited : Bool
  mode_flags : List (String × Bool)
  deriving Repr, DecidableEq

/-- `NormalizedNote`: core fields plus the recursive boxes. -/
inductive NormalizedNote where
  | mk (core : NormalizedNoteCore) (reply : Option NormalizedNote)
      (renote : Option NormalizedNote)

/-- Core-field projection of a normalized note. -/
def NormalizedNote.core : NormalizedNote → NormalizedNoteCore
  | .mk c _ _ => c

/-- Embedded reply of a normalized note. -/
def NormalizedNote.reply : NormalizedNote → Option NormalizedNote
  | .mk _ r _ => r

/-- Embedded renote of a normalized note. -/
def NormalizedNote.renote : NormalizedNote → Option NormalizedNote
  | .mk _ _ rn => rn

/-- Rust `str::starts_with` over the scalar values. -/
def strStarts (s pat : String) : Bool := pat.data.isPrefixOf s.data

/-- Rust `str::ends_with` over the scalar values. -/
def strEnds (s pat : String) : Bool := pat.data.isSuffixOf s.data

/-- The `mode_flags` computation of `RawNote::normalize`: keep the
unrecognized fields whose key starts with `isNoteIn` and ends with `Mode`,
then keep those whose value is a JSON boolean. -/
def modeFlagsOf (extra : List (String × JVal)) : List (String × Bool) :=
  (extra.filter fun kv => strStarts kv.1 "isNoteIn" && strEnds kv.1 "Mode").filterMap
    fun kv => (kv.2.as_bool).map fun b => (kv.1, b)

/-- `RawNote::normalize(self, account_id, server_host)` from `models.rs`. -/
def RawNote.normalize (account_id server_host : String) : RawNote → NormalizedNote
  | .mk c reply renote =>
      NormalizedNote.mk
        { id := c.id
          account_id := account_id
          server_host := server_host
          created_at := c.created_at
          text := c.text
          cw := c.cw
          user := c.user.toNormalized
          visibility := c.visibility
          emojis := c.emojis
          reaction_emojis := c.reaction_emojis
          reactions := c.reactions
          my_reaction := c.my_reaction
          renote_count := c.renote_count
          replies_count := c.replies_count
          files := c.files
          poll := c.poll.map RawPoll.toNormalized
          reply_id := c.reply_id
          renote_id := c.renote_id
          channel_id := c.channel_id
          reaction_acceptance := c.reaction_acceptance
          uri := c.uri
          url := c.url
          updated_at := c.updated_at
          local_only := c.local_only
          is_favorited := c.is_favorited
          mode_flags := modeFlagsOf c.extra }
        (match reply with
         | none => none
         | some r => some (r.normalize account_id server_host))
        (match renote with
         | none => none
         | some r => some (r.normalize account_id server_host))

/-- Recursively: the note and every embedded reply/renote carry the given
`account_id` / `server_host` pair. -/
def NoteTagged (account_id server_host : String) : NormalizedNote → Prop
  | .mk c reply renote =>
      c.account_id = account_id ∧ c.server_host = server_host ∧
        (match reply with
         | none => True
         | some r => NoteTagged account_id server_host r) ∧
        (match renote with
         | none => True
         | some r => NoteTagged account_id server_host r)

/-- Induction principle for the nested `RawNote` inductive. -/
def RawNote.indOn {motive : RawNote → Prop}
    (h : ∀ c r rn, (∀ x, r = some x → motive x) → (∀ x, rn = some x → motive x) →
      motive (.mk c r rn)) :
    ∀ n, motive n
  | .mk c none none =>
      h c none none (fun _ hx => nomatch hx) (fun _ hx => nomatch hx)
  | .mk c (some a) none =>
      h c (some a) none (fun x hx => by cases hx; exact RawNote.indOn h a)
        (fun _ hx => nomatch hx)
  | .mk c none (some b) =>
      h c none (some b) (fun _ hx => nomatch hx)
        (fun x hx => by cases hx; exact RawNote.indOn h b)
  | .mk c (some a) (some b) =>
      h c (some a) (some b) (fun x hx => by cases hx; exact RawNote.indOn h a)
        (fun x hx => by cases hx; exact RawNote.indOn h b)

-- ---------------------------------------------------------------------------
-- db.rs: notes_cache and cache_notes (claim C8)
-- ---------------------------------------------------------------------------

/-- A row of the `notes_cache` table: pulled-out indexing columns plus the
serialized note.  The `note_json` column (a JSON string in SQLite) is
modelled by the note value it deterministically serializes. -/
structure NoteRow where
  note_id : String
  account_id : String
  server_host : String
  created_at : String
  text : Option String
  note_json : NormalizedNote
  cached_at : Nat

/-- Whether a row is the one addressed by the `PRIMARY KEY (note_id,
account_id)` of a note being upserted. -/
def noteKeyMatch (r : NoteRow) (n : NormalizedNote) : Bool :=
  r.note_id == n.core.id && r.account_id == n.core.account_id

/-- One execution of the prepared `INSERT ... ON CONFLICT(note_id,
account_id) DO UPDATE SET note_json = excluded.note_json, cached_at =
excluded.cached_at` statement of `Database::cache_notes`.  On conflict only
`note_json` and `cached_at` change; otherwise a full new row is inserted. -/
def upsertNoteRow (tbl : List NoteRow) (n : NormalizedNote) (now : Nat) : List NoteRow :=
  if tbl.any (fun r => noteKeyMatch r n) then
    tbl.map fun r =>
      if noteKeyMatch r n then { r with note_json := n, cached_at := now } else r
  else
    tbl ++ [{ note_id := n.core.id
              account_id := n.core.account_id
              server_host := n.core.server_host
              created_at := n.core.created_at
              text := n.core.text
              note_json := n
              cached_at := now }]

/-- `Database::cache_notes`: run the prepared statement once per note, in
order, under the single store mutex (`now` is the timestamp taken once at
the start of the call). -/
def cache_notes (tbl : List NoteRow) (notes : List NormalizedNote) (now : Nat) :
    List NoteRow :=
  notes.foldl (fun t n => upsertNoteRow t n now) tbl

/-- A write as seen by the last-writer-wins property: one note together
with the timestamp of the `cache_notes` call that carried it.  Interleaved
`cache_notes` calls are serialized by the store mutex, so any interleaving
is some flat sequence of these writes. -/
def runNoteWrites (tbl : List NoteRow) : List (NormalizedNote × Nat) → List NoteRow
  | [] => tbl
  | (n, now) :: rest => runNoteWrites (upsertNoteRow tbl n now) rest

/-- Lookup of the stored `note_json` by primary key. -/
def lookupNoteJson (tbl : List NoteRow) (note_id account_id : String) :
    Option NormalizedNote :=
  (tbl.find? fun r => r.note_id == note_id && r.account_id == account_id).map
    fun r => r.note_json

/-- No two rows share the `(note_id, account_id)` primary key. -/
def notesKeyUnique (tbl : List NoteRow) : Prop :=
  tbl.Pairwise fun r s => ¬(r.note_id = s.note_id ∧ r.account_id = s.account_id)

/-- Sample user for concrete checks. -/
def sampleUser : NormalizedUser :=
  ⟨"u1", "alice", none, none, none, false, []⟩

/-- Sample normalized note (no embedded notes) for concrete checks. -/
def mkSampleNote (id aid host created : String) (text : Option String) :
    NormalizedNote :=
  NormalizedNote.mk
    { id := id, account_id := aid, server_host := host, created_at := created,
      text := text, cw := none, user := sampleUser, visibility := "public",
      emojis := [], reaction_emojis := [], reactions := [], my_reaction := none,
      renote_count := 0, replies_count := 0, files := [], poll := none,
      reply_id := none, renote_id := none, channel_id := none,
      reaction_acceptance := none, uri := none, url := none, updated_at := none,
      local_only := false, is_favorited := false, mode_flags := [] } none none

-- ---------------------------------------------------------------------------
-- api.rs / image_cache.rs: response body size caps (claim C7)
-- ---------------------------------------------------------------------------

/-- 50 MiB, from `api.rs` (`MAX_RESPONSE_BYTES`). -/
def MAX_RESPONSE_BYTES : Nat := 50 * 1024 * 1024

/-- 20 MiB, from `image_cache.rs` (`MAX_FILE_SIZE`). -/
def MAX_FILE_SIZE : Nat := 20 * 1024 * 1024

/-- A UTF-8 continuation byte. -/
def utf8Cont (b : Nat) : Bool :=
  decide (128 ≤ b ∧ b ≤ 191)

/-- Decode one UTF-8 scalar value from leading byte `b` and remaining
bytes `rest`, as Rust `String::from_utf8` does (rejecting overlong forms,
surrogates and values above `U+10FFFF`): the scalar and the bytes left. -/
def utf8DecodeOne (b : Nat) (rest : List Nat) : Option (Nat × List Nat) :=
  if b ≤ 127 then some (b, rest)
  else if 194 ≤ b ∧ b ≤ 223 then
    match rest with
    | b1 :: r => if utf8Cont b1 then some ((b - 192) * 64 + (b1 - 128), r) else none
    | [] => none
  else if 224 ≤ b ∧ b ≤ 239 then
    match rest with
    | b1 :: b2 :: r =>
        if (decide ((if b = 224 then 160 else 128) ≤ b1 ∧
              b1 ≤ (if b = 237 then 159 else 191))) && utf8Cont b2 then
          some ((b - 224) * 4096 + (b1 - 128) * 64 + (b2 - 128), r)
        else none
    | _ => none
  else if 240 ≤ b ∧ b ≤ 244 then
    match rest with
    | b1 :: b2 :: b3 :: r =>
        if (decide ((if b = 240 then 144 else 128) ≤ b1 ∧
              b1 ≤ (if b = 244 then 143 else 191))) && utf8Cont b2 && utf8Cont b3 then
          some ((b - 240) * 262144 + (b1 - 128) * 4096 + (b2 - 128) * 64 + (b3 - 128), r)
        else none
    | _ => none
  else none

/-- Decoding loop.  Every step consumes at least the leading byte, so a
fuel equal to the byte count never runs out; the fuel only serves to make
the recursion structural. -/
def utf8Go : Nat → List Nat → Option (List Nat)
  | _, [] => some []
  | 0, _ :: _ => none
  | Nat.succ fuel, b :: rest =>
      match utf8DecodeOne b rest with
      | some (c, r) => (utf8Go fuel r).map fun cs => c :: cs
      | none => none

/-- UTF-8 decoding of a byte sequence into unicode scalar values, as done
by Rust `String::from_utf8`. -/
def decodeUtf8 (l : List Nat) : Option (List Nat) :=
  utf8Go l.length l

/-- `MisskeyClient::read_body_limited` from `api.rs`, applied to a 2xx
response: reject a declared `Content-Length` above the cap, then reject an
actual body above the cap, then require valid UTF-8.  The returned Rust
`String` is modelled by its list of unicode scalar values. -/
def read_body_limited (endpoint : String) (content_length : Option Nat)
    (body : List Nat) : Except NoteDeckError (List Nat) :=
  if (match content_length with
      | some len => decide (MAX_RESPONSE_BYTES < len)
      | none => false) then
    Except.error (NoteDeckError.Api endpoint 0 "Response too large")
  else if MAX_RESPONSE_BYTES < body.length then
    Except.error (NoteDeckError.Api endpoint 0 "Response too large")
  else
    match decodeUtf8 body with
    | some cs => Except.ok cs
    | none => Except.error (NoteDeckError.Api endpoint 0 "Invalid UTF-8 in response")

/-- An image cache entry: path of the `.dat` file and the recorded
content type. -/
structure CacheEntryM where
  path : String
  content_type : String
  deriving Repr, DecidableEq

/-- An HTTP response as received by `ImageCache::fetch_and_cache`. -/
structure ImgResponse where
  status : Nat
  content_length : Option Nat
  content_type : Option String
  body : List Nat

/-- `ImageCache::fetch_and_cache` from `image_cache.rs`, applied to a
received response: non-2xx fails, then a declared `Content-Length` above
20 MiB fails, then a downloaded body above 20 MiB fails; otherwise the
files are written and the entry is returned. -/
def fetch_and_cache (data_path : String) (resp : ImgResponse) :
    Except String CacheEntryM :=
  if ¬(200 ≤ resp.status ∧ resp.status ≤ 299) then
    Except.error ("HTTP " ++ toString resp.status)
  else if (match resp.content_length with
           | some cl => decide (MAX_FILE_SIZE < cl)
           | none => false) then
    Except.error "File too large"
  else
    let content_type := resp.content_type.getD "application/octet-stream"
    if MAX_FILE_SIZE < resp.body.length then
      Except.error "File too large"
    else
      Except.ok ⟨data_path, content_type⟩

-- ---------------------------------------------------------------------------
-- streaming.rs: subscription registry and reconnect replay (claim C6)
-- ---------------------------------------------------------------------------

/-- `TimelineType::ws_channel` from `models.rs`. -/
def ws_channel (t : String) : Except NoteDeckError String :=
  match t with
  | "home" => Except.ok "homeTimeline"
  | "local" => Except.ok "localTimeline"
  | "social" => Except.ok "hybridTimeline"
  | "global" => Except.ok "globalTimeline"
  | other => Except.error (NoteDeckError.InvalidInput ("Unknown timeline type: " ++ other))

/-- `SubscriptionInfo` from `streaming.rs`. -/
structure SubscriptionInfo where
  account_id : String
  host : String
  kind : String
  channel : String
  deriving Repr, DecidableEq

/-- The `subscriptions` registry: `subscription_id -> SubscriptionInfo`,
modelled as an association list with unique keys (a `HashMap` in the
source). -/
abbrev Registry := List (String × SubscriptionInfo)

/-- `HashMap::insert` on the registry. -/
def registryInsert (reg : Registry) (sid : String) (info : SubscriptionInfo) : Registry :=
  (reg.filter fun e => e.1 ≠ sid) ++ [(sid, info)]

/-- Registry mutations performed by the `StreamingManager` methods.  The
connection task itself (`connection_task` / `run_ws_session` / `ws_loop`)
only ever reads the registry: a forced disconnect, the backoff wait (during
which Subscribe/Unsubscribe commands are dropped) and the reconnect leave
it unchanged. -/
inductive StreamOp where
  /-- `subscribe_timeline` with a fresh uuid: registers
  `(fresh, {account_id, host, "timeline", ws_channel tt})` after sending the
  Subscribe command (no-op when `ws_channel` rejects the timeline type). -/
  | subscribeTimeline (account_id host tt fresh : String)
  /-- `subscribe_main` with a fresh uuid. -/
  | subscribeMain (account_id host fresh : String)
  /-- `unsubscribe`: removes the id from the registry. -/
  | unsubscribe (sid : String)
  /-- `disconnect`: removes every subscription of the account. -/
  | disconnect (account_id : String)
  /-- Any connection-task event (forced disconnect, backoff wait with
  dropped commands, reconnect): reads the registry only. -/
  | connEvent
  deriving Repr, DecidableEq

/-- Effect of one manager operation on the registry. -/
def applyStreamOp (reg : Registry) : StreamOp → Registry
  | .subscribeTimeline a h tt fresh =>
      match ws_channel tt with
      | Except.ok ch => registryInsert reg fresh ⟨a, h, "timeline", ch⟩
      | Except.error _ => reg
  | .subscribeMain a h fresh => registryInsert reg fresh ⟨a, h, "main", "main"⟩
  | .unsubscribe sid => reg.filter fun e => e.1 ≠ sid
  | .disconnect a => reg.filter fun e => e.2.account_id ≠ a
  | .connEvent => reg

/-- Fold a sequence of manager operations over the registry. -/
def applyStreamOps (reg : Registry) : List StreamOp → Registry
  | [] => reg
  | op :: rest => applyStreamOps (applyStreamOp reg op) rest

/-- The JSON value `{"type":"connect","body":{"channel":channel,"id":id}}`
sent as a Text frame, modelled structurally (JSON object fields are
unordered). -/
structure ConnectFrame where
  channel : String
  id : String
  deriving Repr, DecidableEq

/-- The replay performed at the start of `run_ws_session`, before the
message loop: collect the subscriptions of this account from the registry
(under lock), then send one connect frame per subscription, carrying its
original id and channel. -/
def run_ws_session_replay (reg : Registry) (account_id : String) : List ConnectFrame :=
  (reg.filter fun e => e.2.account_id == account_id).map fun e => ⟨e.2.channel, e.1⟩

/-- The registry keys are pairwise distinct (`HashMap` keys). -/
def registryKeysUnique (reg : Registry) : Prop :=
  (reg.map fun e => e.1).Nodup

/-- Whether a manager operation leaves the subscription `sid` of account
`acct` registered: it is not an unsubscribe of that id, not a disconnect of
that account, and (for subscriptions) its fresh uuid does not collide with
`sid`. -/
def opKeeps (sid acct : String) : StreamOp → Prop
  | .subscribeTimeline _ _ _ fresh => fresh ≠ sid
  | .subscribeMain _ _ fresh => fresh ≠ sid
  | .unsubscribe s => s ≠ sid
  | .disconnect a => a ≠ acct
  | .connEvent => True

-- ---------------------------------------------------------------------------
-- image_cache.rs: single-flight get_or_fetch (claim C3)
-- ---------------------------------------------------------------------------

/-- The outcome of one HTTP fetch: `Result<CacheEntry, String>`. -/
abbrev FetchRes := Except String CacheEntryM

/-- How a `get_or_fetch` call finished: through the cache-hit fast path,
as the single-flight leader of channel generation `c`, or as a waiter on
generation `c`. -/
inductive DoneVia where
  | hit
  | led (c : Nat)
  | waited (c : Nat)
  deriving Repr, DecidableEq

/-- Program counter of one `get_or_fetch(url)` task, for a fixed URL (all
callers share the URL's hash).  Each constructor marks a suspension point
of the source: the steps between two counters are the atomic sections of
`get_or_fetch` / `fetch_and_cache`. -/
inductive CallerPc where
  /-- Before the `check_cache` call. -/
  | start
  /-- `check_cache` returned `None`; about to lock the inflight table. -/
  | checked
  /-- Found an inflight entry with receiver of generation `c`; awaiting it. -/
  | waiter (c : Nat)
  /-- Inserted the inflight entry of generation `c`; about to fetch. -/
  | leader (c : Nat)
  /-- HTTP fetch in progress. -/
  | fetching (c : Nat)
  /-- Fetch finished with `r` (cache files written on success); about to
  publish on the watch channel. -/
  | fetched (c : Nat) (r : FetchRes)
  /-- Published `r`; about to remove the inflight entry. -/
  | published (c : Nat) (r : FetchRes)
  /-- Removed the inflight entry; about to return (dropping the sender). -/
  | removed (c : Nat) (r : FetchRes)
  /-- The task was cancelled (future dropped) at the fetch await point;
  the sender was dropped without a published value. -/
  | gone (c : Nat)
  /-- Returned `r`. -/
  | done (r : FetchRes) (v : DoneVia)

/-- One `tokio::sync::watch` channel generation: the last published value
and whether the sender has been dropped. -/
structure ChanSt where
  published : Option FetchRes
  closed : Bool

/-- Global state of the single-flight system for one URL: the on-disk
cache entry (`none` = no valid entry), the inflight table entry for the
URL's hash, the watch channels ever created (generation-indexed, never
reused), the fetch counter, and the per-caller program counters. -/
structure SFState where
  cacheVal : Option CacheEntryM
  inflight : Option Nat
  channels : Nat → ChanSt
  nextChan : Nat
  fetchCount : Nat
  callers : Nat → CallerPc

/-- Interleaving semantics of concurrent `get_or_fetch` calls: any caller
may take its next atomic section at any time.  Fetch outcomes are chosen
nondeterministically at `endFetch` (network nondeterminism). -/
inductive sfStep : SFState → SFState → Prop
  /-- `check_cache` returns a valid entry. -/
  | hit (s : SFState) (i : Nat) (e : CacheEntryM) :
      s.callers i = .start → s.cacheVal = some e →
      sfStep s { s with callers := Function.update s.callers i (.done (.ok e) .hit) }
  /-- `check_cache` misses. -/
  | missed (s : SFState) (i : Nat) :
      s.callers i = .start → s.cacheVal = none →
      sfStep s { s with callers := Function.update s.callers i .checked }
  /-- The inflight lock finds an entry: clone its receiver and wait. -/
  | join (s : SFState) (i c : Nat) :
      s.callers i = .checked → s.inflight = some c →
      sfStep s { s with callers := Function.update s.callers i (.waiter c) }
  /-- The inflight lock finds no entry: create a fresh watch channel and
  insert it (the new generation), becoming the leader. -/
  | insertLead (s : SFState) (i : Nat) :
      s.callers i = .checked → s.inflight = none →
      sfStep s { s with inflight := some s.nextChan
                        nextChan := s.nextChan + 1
                        callers := Function.update s.callers i (.leader s.nextChan) }
  /-- The leader starts the HTTP fetch. -/
  | startFetch (s : SFState) (i c : Nat) :
      s.callers i = .leader c →
      sfStep s { s with fetchCount := s.fetchCount + 1
                        callers := Function.update s.callers i (.fetching c) }
  /-- The fetch succeeds; `fetch_and_cache` wrote both cache files. -/
  | endFetchOk (s : SFState) (i c : Nat) (e : CacheEntryM) :
      s.callers i = .fetching c →
      sfStep s { s with cacheVal := some e
                        callers := Function.update s.callers i (.fetched c (.ok e)) }
  /-- The fetch fails with message `m`. -/
  | endFetchErr (s : SFState) (i c : Nat) (m : String) :
      s.callers i = .fetching c →
      sfStep s { s with callers := Function.update s.callers i (.fetched c (.error m)) }
  /-- `tx.send(Some(result))`. -/
  | publish (s : SFState) (i c : Nat) (r : FetchRes) :
      s.callers i = .fetched c r →
      sfStep s { s with channels := Function.update s.channels c
                          ⟨some r, (s.channels c).closed⟩
                        callers := Function.update s.callers i (.published c r) }
  /-- `self.inflight.lock().await.remove(&hash)`. -/
  | removeEntry (s : SFState) (i c : Nat) (r : FetchRes) :
      s.callers i = .published c r →
      sfStep s { s with inflight := none
                        callers := Function.update s.callers i (.removed c r) }
  /-- `get_or_fetch` returns from the leader path, dropping `tx`. -/
  | dropTx (s : SFState) (i c : Nat) (r : FetchRes) :
      s.callers i = .removed c r →
      sfStep s { s with channels := Function.update s.channels c
                          ⟨(s.channels c).published, true⟩
                        callers := Function.update s.callers i (.done r (.led c)) }
  /-- A waiter observes a published value through `rx.changed()` /
  `rx.borrow()` and returns its clone. -/
  | waiterGot (s : SFState) (i c : Nat) (r : FetchRes) :
      s.callers i = .waiter c → (s.channels c).published = some r →
      sfStep s { s with callers := Function.update s.callers i (.done r (.waited c)) }
  /-- A waiter observes the channel closed without a published value and
  returns the generic error. -/
  | waiterClosed (s : SFState) (i c : Nat) :
      s.callers i = .waiter c → (s.channels c).published = none →
      (s.channels c).closed = true →
      sfStep s { s with callers := Function.update s.callers i
                          (.done (.error "Inflight request dropped") (.waited c)) }
  /-- The leader task is cancelled (cancel-on-drop of a gateway handler)
  at the fetch await point: the sender is dropped without a value; the
  inflight entry is never removed. -/
  | cancelFetch (s : SFState) (i c : Nat) :
      s.callers i = .fetching c →
      sfStep s { s with channels := Function.update s.channels c
                          ⟨(s.channels c).published, true⟩
                        callers := Function.update s.callers i (.gone c) }

/-- Initial state of the claimed scenario: no valid cache entry for the
URL, nothing inflight, all callers about to enter `get_or_fetch`. -/
def sfInit : SFState :=
  { cacheVal := none
    inflight := none
    channels := fun _ => ⟨none, false⟩
    nextChan := 0
    fetchCount := 0
    callers := fun _ => .start }

/-- Reachability of a state from the initial state by any interleaving. -/
def SFReachable (s : SFState) : Prop :=
  Relation.ReflTransGen sfStep sfInit s

/-- The channel generation a caller references, if any. -/
def CallerPc.chanOf : CallerPc → Option Nat
  | .start => none
  | .checked => none
  | .waiter c => some c
  | .leader c => some c
  | .fetching c => some c
  | .fetched c _ => some c
  | .published c _ => some c
  | .removed c _ => some c
  | .gone c => some c
  | .done _ DoneVia.hit => none
  | .done _ (DoneVia.led c) => some c
  | .done _ (DoneVia.waited c) => some c

/-- The channel generation a caller owns while its inflight entry is still
in the table (between insertion and removal). -/
def CallerPc.activeOwnerOf : CallerPc → Option Nat
  | .start => none
  | .checked => none
  | .waiter _ => none
  | .leader c => some c
  | .fetching c => some c
  | .fetched c _ => some c
  | .published c _ => some c
  | .removed _ _ => none
  | .gone _ => none
  | .done _ _ => none

/-- Whether a caller owns channel `c` and has not yet published. -/
def CallerPc.prePublishOn (pc : CallerPc) (c : Nat) : Prop :=
  pc = .leader c ∨ pc = .fetching c ∨ ∃ r, pc = .fetched c r

/-- The generic waiter error string. -/
def inflightDroppedMsg : String := "Inflight request dropped"

/-- Inductive invariant of the single-flight system.  `F`: channels at or
above `nextChan` are untouched and unreferenced; `E`: the inflight entry is
an allocated generation; `U`: at most one caller owns an inflight entry;
`O`: an owner's entry is in the table and its channel is open; `R`: after
the owner removed its entry, that generation is no longer in the table;
`Q`: before the owner publishes, its channel holds no value; `P`: from
publication on, the channel holds exactly the owner's result; `W`: a
finished waiter either returned the published value of its generation or
returned the generic error from a closed, valueless channel. -/
structure SFInv (s : SFState) : Prop where
  F : ∀ c, s.nextChan ≤ c →
        s.channels c = ⟨none, false⟩ ∧ s.inflight ≠ some c ∧
          ∀ i, (s.callers i).chanOf ≠ some c
  E : ∀ c, s.inflight = some c → c < s.nextChan
  U : ∀ i j ci cj, (s.callers i).activeOwnerOf = some ci →
        (s.callers j).activeOwnerOf = some cj → i = j
  O : ∀ i c, (s.callers i).activeOwnerOf = some c →
        s.inflight = some c ∧ (s.channels c).closed = false
  R : ∀ i c r, s.callers i = .removed c r → s.inflight ≠ some c
  Q : ∀ i c, (s.callers i).prePublishOn c → (s.channels c).published = none
  P : ∀ i c r, (s.callers i = .published c r ∨ s.callers i = .removed c r ∨
        s.callers i = .done r (.led c)) → (s.channels c).published = some r
  W : ∀ i c r, s.callers i = .done r (.waited c) →
        (s.channels c).published = some r ∨
          (r = Except.error inflightDroppedMsg ∧ (s.channels c).published = none ∧
            (s.channels c).closed = true)

-- ===========================================================================
-- Theorems
-- ===========================================================================

-- ---------------------------------------------------------------------------
-- Claim C1: no token field / token string in AccountPublic serializations
-- ---------------------------------------------------------------------------

/-- The string values of a serialized `AccountPublic` are exactly the seven
public fields of the underlying account. -/
theorem jsonStringValues_fromAccount (a : Account) :
    jsonStringValues (serializeAccountPublic (AccountPublic.fromAccount a)) =
      accountPublicStrings a := by
  cases hd : a.display_name <;> cases hv : a.avatar_url <;>
    simp [jsonStringValues, serializeAccountPublic, AccountPublic.fromAccount,
      serializeOptStr, accountPublicStrings, hd, hv]

/-- Claim C1 (counterexample): the claim asserts that serializing the
`AccountPublic` of any account contains no occurrence of that account's
token string.  For an account whose token string coincides with one of its
public fields (here the username), the token string does occur among the
serialized values. -/
theorem account_public_token_occurrence_counterexample :
    (Account.mk "acct1" "misskey.example.com" "sec-token" "u1" "sec-token"
        none none "misskey").token ∈
      jsonStringValues (serializeAccountPublic (AccountPublic.fromAccount
        (Account.mk "acct1" "misskey.example.com" "sec-token" "u1" "sec-token"
          none none "misskey"))) := by
  decide

/-- Claim C1 (amended): every `AccountPublic` produced by `load_accounts`
(and by the `GET /api/accounts` handler) serializes to a JSON object with
no field named `token`, and whose string values are exactly the seven
public fields of the account; consequently, whenever an account's token
string differs from each of its public fields, the serialization contains
no occurrence of the token string. -/
theorem account_public_no_token_leak :
    ∀ (accounts : List Account) (a : Account),
      (∀ p ∈ load_accounts accounts,
        "token" ∉ (serializeAccountPublic p).map Prod.fst) ∧
      (a.token ∉ accountPublicStrings a →
        a.token ∉ jsonStringValues (serializeAccountPublic (AccountPublic.fromAccount a))) := by
  intro accounts a
  constructor
  · intro p _
    simp [serializeAccountPublic]
  · intro h
    rw [jsonStringValues_fromAccount]
    exact h

/-- Claim C1 witness: concrete account whose token differs from every
public field; its serialization has no `token` key and no occurrence of the
token. -/
theorem account_public_no_token_leak_witness :
    ("token" ∉ (serializeAccountPublic (AccountPublic.fromAccount
        (Account.mk "acct1" "misskey.example.com" "tok-secret" "u1" "alice"
          (some "Alice") none "misskey"))).map Prod.fst) ∧
      ("tok-secret" ∉ jsonStringValues (serializeAccountPublic (AccountPublic.fromAccount
        (Account.mk "acct1" "misskey.example.com" "tok-secret" "u1" "alice"
          (some "Alice") none "misskey")))) :=
  ⟨((account_public_no_token_leak
      [Account.mk "acct1" "misskey.example.com" "tok-secret" "u1" "alice"
        (some "Alice") none "misskey"]
      (Account.mk "acct1" "misskey.example.com" "tok-secret" "u1" "alice"
        (some "Alice") none "misskey")).1
      (AccountPublic.fromAccount
        (Account.mk "acct1" "misskey.example.com" "tok-secret" "u1" "alice"
          (some "Alice") none "misskey"))
      (by simp [load_accounts])),
    ((account_public_no_token_leak
      [Account.mk "acct1" "misskey.example.com" "tok-secret" "u1" "alice"
        (some "Alice") none "misskey"]
      (Account.mk "acct1" "misskey.example.com" "tok-secret" "u1" "alice"
        (some "Alice") none "misskey")).2 (by decide))⟩

-- ---------------------------------------------------------------------------
-- Claim C4: account (host, user_id) uniqueness and id-preserving upsert
-- ---------------------------------------------------------------------------

/-- The DO UPDATE clause leaves the `(host, user_id)` key of a row
unchanged. -/
theorem mergeAccountRow_key (r a : Account) :
    (mergeAccountRow r a).host = r.host ∧ (mergeAccountRow r a).user_id = r.user_id :=
  ⟨rfl, rfl⟩

/-- A successful `upsert_account` preserves the `(host, user_id)`
uniqueness invariant of the accounts table. -/
theorem upsert_account_preserves_unique (tbl : List Account) (a : Account)
    (tbl' : List Account) (h : accountsKeyUnique tbl)
    (hok : upsert_account tbl a = Except.ok tbl') : accountsKeyUnique tbl' := by
  unfold upsert_account at hok
  by_cases hm : tbl.any (fun r => accKeyMatch r a)
  · simp only [hm, if_true] at hok
    cases hok
    refine List.Pairwise.map _ ?_ h
    intro r s hrs
    by_cases h1 : accKeyMatch r a = true <;> by_cases h2 : accKeyMatch s a = true <;>
      simp [h1, h2, mergeAccountRow] at * <;> tauto
  · simp only [hm, if_false] at hok
    by_cases hid : tbl.any (fun r => r.id == a.id)
    · simp [hid] at hok
    · simp only [hid, if_false] at hok
      cases hok
      rw [accountsKeyUnique, List.pairwise_append]
      refine ⟨h, List.pairwise_singleton _ _, ?_⟩
      intro r hr x hx
      simp only [List.mem_singleton] at hx
      subst hx
      simp only [List.any_eq_true, not_exists, not_and] at hm
      have := hm r hr
      simp [accKeyMatch] at this
      tauto

/-- Any sequence of upserts starting from a table satisfying the
uniqueness invariant preserves it. -/
theorem runUpserts_unique (ops : List Account) :
    ∀ tbl : List Account, accountsKeyUnique tbl → accountsKeyUnique (runUpserts tbl ops) := by
  induction ops with
  | nil => intro tbl h; exact h
  | cons a rest ih =>
      intro tbl h
      unfold runUpserts
      cases hu : upsert_account tbl a with
      | ok tbl' => exact ih tbl' (upsert_account_preserves_unique tbl a tbl' h hu)
      | error _ => exact ih tbl h

/-- Claim C4: after any sequence of `upsert_account` calls no two rows of
the accounts table share the `(host, user_id)` pair, and upserting an
account whose `(host, user_id)` matches an existing row rewrites exactly
that row — replacing its `token`, `username`, `display_name`, `avatar_url`
and `software` with the new values — while preserving the existing row's
`id` and leaving every other row untouched. -/
theorem upsert_account_spec :
    (∀ ops : List Account, accountsKeyUnique (runUpserts [] ops)) ∧
    (∀ (tbl₁ tbl₂ : List Account) (r a : Account),
      accountsKeyUnique (tbl₁ ++ r :: tbl₂) →
      r.host = a.host → r.user_id = a.user_id →
      upsert_account (tbl₁ ++ r :: tbl₂) a =
          Except.ok (tbl₁ ++ mergeAccountRow r a :: tbl₂) ∧
        (mergeAccountRow r a).id = r.id ∧
        (mergeAccountRow r a).token = a.token ∧
        (mergeAccountRow r a).username = a.username ∧
        (mergeAccountRow r a).display_name = a.display_name ∧
        (mergeAccountRow r a).avatar_url = a.avatar_url ∧
        (mergeAccountRow r a).software = a.software) := by
  constructor
  · intro ops
    exact runUpserts_unique ops [] List.Pairwise.nil
  · intro tbl₁ tbl₂ r a huniq hh hu
    have hkey : accKeyMatch r a = true := by
      simp [accKeyMatch, hh, hu]
    have hmem : r ∈ tbl₁ ++ r :: tbl₂ := by simp
    have hany : (tbl₁ ++ r :: tbl₂).any (fun x => accKeyMatch x a) = true := by
      rw [List.any_eq_true]
      exact ⟨r, hmem, hkey⟩
    have hothers : ∀ x ∈ tbl₁ ++ tbl₂, accKeyMatch x a = false := by
      intro x hx
      rw [accountsKeyUnique, List.pairwise_append] at huniq
      rcases List.mem_append.mp hx with h1 | h2
      · have hx' := huniq.2.2 x h1 r (by simp)
        have : ¬(x.host = a.host ∧ x.user_id = a.user_id) := fun hc =>
          hx' ⟨hc.1.trans hh.symm, hc.2.trans hu.symm⟩
        simpa [accKeyMatch] using this
      · have hx' := (List.pairwise_cons.mp huniq.2.1).1 x h2
        have : ¬(x.host = a.host ∧ x.user_id = a.user_id) := fun hc =>
          hx' ⟨hh.trans hc.1.symm, hu.trans hc.2.symm⟩
        simpa [accKeyMatch] using this
    refine ⟨?_, rfl, rfl, rfl, rfl, rfl, rfl⟩
    unfold upsert_account
    simp only [hany, if_true]
    have hupd₁ : tbl₁.map (fun x => if accKeyMatch x a then mergeAccountRow x a else x)
        = tbl₁ := by
      conv_rhs => rw [← List.map_id tbl₁]
      refine List.map_congr_left ?_
      intro x hx
      simp [hothers x (List.mem_append.mpr (Or.inl hx))]
    have hupd₂ : tbl₂.map (fun x => if accKeyMatch x a then mergeAccountRow x a else x)
        = tbl₂ := by
      conv_rhs => rw [← List.map_id tbl₂]
      refine List.map_congr_left ?_
      intro x hx
      simp [hothers x (List.mem_append.mpr (Or.inr hx))]
    rw [List.map_append, List.map_cons, hupd₁, hupd₂]
    simp [hkey]

/-- Claim C4 witness: a concrete re-authentication updates the matching
row in place, preserving its id. -/
theorem upsert_account_spec_witness :
    upsert_account
        [Account.mk "old-id" "h.example" "tok1" "u1" "alice" none none "misskey"]
        (Account.mk "new-id" "h.example" "tok2" "u1" "alice2" (some "A") none "sharkey") =
      Except.ok
        [Account.mk "old-id" "h.example" "tok2" "u1" "alice2" (some "A") none "sharkey"] := by
  have h := (upsert_account_spec.2 [] []
    (Account.mk "old-id" "h.example" "tok1" "u1" "alice" none none "misskey")
    (Account.mk "new-id" "h.example" "tok2" "u1" "alice2" (some "A") none "sharkey")
    (by simp [accountsKeyUnique]) rfl rfl).1
  simpa [mergeAccountRow] using h

-- ---------------------------------------------------------------------------
-- Claim C5: auth sessions are single-use, TTL-bounded, host-checked
-- ---------------------------------------------------------------------------

/-- The state after `consume`: unchanged when the id is absent, otherwise
the entry removed (in every outcome branch). -/
theorem authConsume_snd (st : TrackerState) (s h : String) (n : Nat) :
    (authConsume st s h n).2 =
      match st.find? (fun e => e.session_id == s) with
      | none => st
      | some _ => st.filter fun x => x.session_id ≠ s := by
  unfold authConsume
  cases hf : st.find? (fun e => e.session_id == s) with
  | none => rfl
  | some e =>
      dsimp only
      split
      · rfl
      · split <;> rfl

/-- Removing a key keeps every other presence fact. -/
theorem trackerHas_filter_le (st : TrackerState) (s sid : String)
    (h : trackerHas (st.filter fun x => x.session_id ≠ s) sid = true) :
    trackerHas st sid = true := by
  unfold trackerHas at *
  rw [List.any_eq_true] at *
  obtain ⟨x, hx, hp⟩ := h
  exact ⟨x, (List.mem_filter.mp hx).1, hp⟩

/-- After removing key `s`, `s` is absent. -/
theorem trackerHas_filter_self (st : TrackerState) (s : String) :
    trackerHas (st.filter fun x => x.session_id ≠ s) s = false := by
  unfold trackerHas
  apply Bool.eq_false_iff.mpr
  intro hb
  rw [List.any_eq_true] at hb
  obtain ⟨x, hx, hp⟩ := hb
  have h2 := (List.mem_filter.mp hx).2
  simp only [beq_iff_eq] at hp
  simp only [decide_eq_true_eq] at h2
  exact h2 hp

/-- Registering a different session id cannot create an entry for `sid`. -/
theorem trackerHas_register_of_ne (st : TrackerState) (s h : String) (n : Nat)
    (sid : String) (hne : s ≠ sid)
    (hhas : trackerHas (authRegister st s h n) sid = true) :
    trackerHas st sid = true := by
  unfold trackerHas authRegister at *
  rw [List.any_eq_true] at hhas ⊢
  obtain ⟨e, he, hp⟩ := hhas
  rw [List.mem_append] at he
  rcases he with he | he
  · exact ⟨e, (List.mem_filter.mp (List.mem_filter.mp he).1).1, hp⟩
  · rw [List.mem_singleton] at he
    subst he
    simp only [beq_iff_eq] at hp
    exact absurd hp hne

/-- After consuming `sid`, the tracker holds no entry for `sid`. -/
theorem trackerHas_consume_self (st : TrackerState) (h : String) (n : Nat)
    (sid : String) : trackerHas (authConsume st sid h n).2 sid = false := by
  rw [authConsume_snd]
  cases hf : st.find? (fun e => e.session_id == sid) with
  | none =>
      apply Bool.eq_false_iff.mpr
      intro hb
      unfold trackerHas at hb
      rw [List.any_eq_true] at hb
      obtain ⟨x, hx, hp⟩ := hb
      rw [List.find?_eq_none] at hf
      exact absurd hp (hf x hx)
  | some e => exact trackerHas_filter_self st sid

/-- Consuming any id cannot create an entry for `sid`. -/
theorem trackerHas_consume_mono (st : TrackerState) (s h : String) (n : Nat)
    (sid : String)
    (hhas : trackerHas (authConsume st s h n).2 sid = true) :
    trackerHas st sid = true := by
  rw [authConsume_snd] at hhas
  cases hf : st.find? (fun e => e.session_id == s) with
  | none => rw [hf] at hhas; exact hhas
  | some e => rw [hf] at hhas; exact trackerHas_filter_le st s sid hhas

/-- A successful consume found an entry for its session id. -/
theorem consume_ok_has (st : TrackerState) (s h : String) (n : Nat)
    (hok : (authConsume st s h n).1.isOk = true) : trackerHas st s = true := by
  unfold authConsume at hok
  cases hf : st.find? (fun e => e.session_id == s) with
  | none => rw [hf] at hok; simp [Except.isOk, Except.toBool] at hok
  | some e =>
      have hmem := List.mem_of_find?_eq_some hf
      have hp := List.find?_some hf
      unfold trackerHas
      rw [List.any_eq_true]
      exact ⟨e, hmem, hp⟩

/-- Bounded success count: successful consumes of `sid` are at most the
registrations of `sid` plus one for an entry already present. -/
theorem authSuccesses_le (ops : List AuthOp) :
    ∀ (st : TrackerState) (sid : String),
      authSuccesses st sid ops ≤
        authRegs sid ops + (if trackerHas st sid then 1 else 0) := by
  induction ops with
  | nil => intro st sid; simp [authSuccesses, authRegs]
  | cons op rest ih =>
      intro st sid
      cases op with
      | reg s h n =>
          simp only [authSuccesses, authRegs]
          have hle := ih (authRegister st s h n) sid
          by_cases hs : s = sid
          · rw [if_pos hs]
            have h1 : (if trackerHas (authRegister st s h n) sid then 1 else 0) ≤ 1 := by
              split <;> omega
            split <;> omega
          · rw [if_neg hs]
            by_cases hh : trackerHas (authRegister st s h n) sid = true
            · rw [if_pos hh] at hle
              have h2 := trackerHas_register_of_ne st s h n sid hs hh
              rw [h2]
              simp only [eq_self_iff_true, if_true]
              omega
            · rw [Bool.not_eq_true] at hh
              rw [hh] at hle
              simp only [Bool.false_eq_true, if_false] at hle
              split <;> omega
      | con s h n =>
          simp only [authSuccesses, authRegs]
          have htail := ih (authConsume st s h n).2 sid
          by_cases hs : s = sid
          · subst hs
            rw [trackerHas_consume_self st h n s] at htail
            simp only [Bool.false_eq_true, if_false] at htail
            by_cases hok : (authConsume st s h n).1.isOk = true
            · rw [if_pos ⟨rfl, hok⟩]
              have hhas := consume_ok_has st s h n hok
              rw [hhas]
              simp only [eq_self_iff_true, if_true]
              omega
            · rw [if_neg (fun hc => hok hc.2)]
              split <;> omega
          · rw [if_neg (fun hc => hs hc.1)]
            by_cases hh : trackerHas (authConsume st s h n).2 sid = true
            · rw [if_pos hh] at htail
              have h2 := trackerHas_consume_mono st s h n sid hh
              rw [h2]
              simp only [eq_self_iff_true, if_true]
              omega
            · rw [Bool.not_eq_true] at hh
              rw [hh] at htail
              simp only [Bool.false_eq_true, if_false] at htail
              split <;> omega

/-- Claim C5: a registered auth session is consumed successfully at most
once (never more often than it was registered), and `consume` rejects with
an `AUTH` error when the session id is absent (never registered or already
consumed), when more than 15 minutes have elapsed since its registration,
or when the supplied host differs from the registered one. -/
theorem auth_session_tracker_spec :
    (∀ (ops : List AuthOp) (sid : String),
      authSuccesses [] sid ops ≤ authRegs sid ops) ∧
    (∀ (st : TrackerState) (sid host : String) (now : Nat),
      st.find? (fun e => e.session_id == sid) = none →
        (authConsume st sid host now).1 =
          Except.error (NoteDeckError.Auth "Invalid or already consumed auth session")) ∧
    (∀ (st : TrackerState) (sid host : String) (now : Nat) (e : AuthEntry),
      st.find? (fun x => x.session_id == sid) = some e →
      AUTH_SESSION_TTL_SECS < now - e.created →
        ∃ m, (authConsume st sid host now).1 = Except.error (NoteDeckError.Auth m)) ∧
    (∀ (st : TrackerState) (sid host : String) (now : Nat) (e : AuthEntry),
      st.find? (fun x => x.session_id == sid) = some e →
      e.host ≠ host →
        ∃ m, (authConsume st sid host now).1 = Except.error (NoteDeckError.Auth m)) := by
  refine ⟨?_, ?_, ?_, ?_⟩
  · intro ops sid
    have := authSuccesses_le ops [] sid
    simpa [trackerHas] using this
  · intro st sid host now hf
    unfold authConsume
    rw [hf]
  · intro st sid host now e hf hex
    unfold authConsume
    rw [hf]
    dsimp only
    rw [if_pos (by unfold AUTH_SESSION_TTL_SECS at hex ⊢; omega)]
    exact ⟨_, rfl⟩
  · intro st sid host now e hf hho
    unfold authConsume
    rw [hf]
    dsimp only
    by_cases hex : AUTH_SESSION_TTL_SECS ≤ now - e.created
    · rw [if_pos hex]; exact ⟨_, rfl⟩
    · rw [if_neg hex, if_pos hho]; exact ⟨_, rfl⟩

/-- Claim C5 witness: concretely, consuming a session registered 901
seconds earlier fails with an `AUTH` error, and consuming an unknown id
fails with the replay error. -/
theorem auth_session_tracker_spec_witness :
    (∃ m, (authConsume [⟨"sid1", "h.example", 0⟩] "sid1" "h.example" 901).1 =
      Except.error (NoteDeckError.Auth m)) ∧
    (authConsume [] "nope" "h.example" 0).1 =
      Except.error (NoteDeckError.Auth "Invalid or already consumed auth session") :=
  ⟨auth_session_tracker_spec.2.2.1 [⟨"sid1", "h.example", 0⟩] "sid1" "h.example" 901
      ⟨"sid1", "h.example", 0⟩ (by rfl) (by decide),
    auth_session_tracker_spec.2.1 [] "nope" "h.example" 0 (by rfl)⟩

-- ---------------------------------------------------------------------------
-- Claim C9: normalize stamps account_id/server_host recursively
-- ---------------------------------------------------------------------------

/-- Claim C9: for every raw note, account id and host, the normalized note
carries that `account_id` / `server_host` pair, and so does every embedded
reply and renote, recursively at any depth. -/
theorem normalize_tagged :
    ∀ (raw : RawNote) (account_id server_host : String),
      NoteTagged account_id server_host (raw.normalize account_id server_host) := by
  intro raw aid host
  induction raw using RawNote.indOn with
  | h c r rn ihr ihrn =>
      cases r with
      | none =>
          cases rn with
          | none => simp [RawNote.normalize, NoteTagged]
          | some b =>
              simp only [RawNote.normalize, NoteTagged]
              exact ⟨trivial, trivial, trivial, ihrn b rfl⟩
      | some a =>
          cases rn with
          | none =>
              simp only [RawNote.normalize, NoteTagged]
              exact ⟨trivial, trivial, ihr a rfl, trivial⟩
          | some b =>
              simp only [RawNote.normalize, NoteTagged]
              exact ⟨trivial, trivial, ihr a rfl, ihrn b rfl⟩

-- ---------------------------------------------------------------------------
-- Claim C10: mode_flags keeps exactly the boolean isNoteIn*Mode extras
-- ---------------------------------------------------------------------------

/-- Membership characterization of the `mode_flags` computation. -/
theorem modeFlagsOf_mem (extra : List (String × JVal)) (k : String) (b : Bool) :
    (k, b) ∈ modeFlagsOf extra ↔
      (k, JVal.bool b) ∈ extra ∧
        (strStarts k "isNoteIn" && strEnds k "Mode") = true := by
  unfold modeFlagsOf
  constructor
  · intro hmem
    rw [List.mem_filterMap] at hmem
    obtain ⟨⟨k', v⟩, hkv, hf⟩ := hmem
    rw [List.mem_filter] at hkv
    cases v with
    | bool bb =>
        simp only [JVal.as_bool, Option.map_some'] at hf
        rw [Option.some.injEq, Prod.mk.injEq] at hf
        obtain ⟨hk, hb⟩ := hf
        subst hk; subst hb
        exact ⟨hkv.1, hkv.2⟩
    | null => simp [JVal.as_bool] at hf
    | str s => simp [JVal.as_bool] at hf
    | num n => simp [JVal.as_bool] at hf
  · rintro ⟨hmem, hpred⟩
    rw [List.mem_filterMap]
    exact ⟨(k, JVal.bool b), List.mem_filter.mpr ⟨hmem, hpred⟩, by simp [JVal.as_bool]⟩

/-- Claim C10: `normalize` places into `mode_flags` exactly the
unrecognized top-level fields whose key starts with `isNoteIn`, ends with
`Mode`, and whose value is a JSON boolean; any key failing the name test
never appears in `mode_flags` (and the normalized note has no other
receptacle for unrecognized fields). -/
theorem normalize_mode_flags_spec :
    ∀ (c : RawNoteCore) (reply renote : Option RawNote) (aid host : String),
      ((RawNote.mk c reply renote).normalize aid host).core.mode_flags
          = modeFlagsOf c.extra ∧
      (∀ (k : String) (b : Bool),
        (k, b) ∈ modeFlagsOf c.extra ↔
          (k, JVal.bool b) ∈ c.extra ∧
            (strStarts k "isNoteIn" && strEnds k "Mode") = true) ∧
      (∀ k : String, (strStarts k "isNoteIn" && strEnds k "Mode") = false →
        k ∉ (modeFlagsOf c.extra).map Prod.fst) := by
  intro c reply renote aid host
  refine ⟨?_, fun k b => modeFlagsOf_mem c.extra k b, ?_⟩
  · cases reply <;> cases renote <;> simp [RawNote.normalize, NormalizedNote.core]
  · intro k hpred hk
    rw [List.mem_map] at hk
    obtain ⟨⟨k', b'⟩, hmem, hfst⟩ := hk
    have hk' : k' = k := hfst
    subst hk'
    have hmf := (modeFlagsOf_mem c.extra k' b').mp hmem
    rw [hmf.2] at hpred
    exact absurd hpred (by simp)

/-- Claim C10 witness: a concrete raw note whose extras hold one boolean
fork flag, one non-boolean `isNoteIn*Mode` key and one unrelated key keeps
exactly the boolean fork flag. -/
theorem normalize_mode_flags_spec_witness :
    ("other" ∉ (modeFlagsOf [("isNoteInYamiMode", JVal.bool true),
        ("isNoteInXMode", JVal.str "no"), ("other", JVal.bool false)]).map Prod.fst) ∧
    (("isNoteInYamiMode", true) ∈ modeFlagsOf [("isNoteInYamiMode", JVal.bool true),
        ("isNoteInXMode", JVal.str "no"), ("other", JVal.bool false)]) :=
  ⟨(normalize_mode_flags_spec
      (RawNoteCore.mk "n1" "t0" none none
        (RawUser.mk "u1" "alice" none none none false []) "public" [] [] [] none 0 0
        [] none none none none none none none none false false
        [("isNoteInYamiMode", JVal.bool true), ("isNoteInXMode", JVal.str "no"),
          ("other", JVal.bool false)])
      none none "a1" "h.example").2.2 "other" (by decide),
    ((normalize_mode_flags_spec
      (RawNoteCore.mk "n1" "t0" none none
        (RawUser.mk "u1" "alice" none none none false []) "public" [] [] [] none 0 0
        [] none none none none none none none none false false
        [("isNoteInYamiMode", JVal.bool true), ("isNoteInXMode", JVal.str "no"),
          ("other", JVal.bool false)])
      none none "a1" "h.example").2.1 "isNoteInYamiMode" true).mpr (by decide)⟩

-- ---------------------------------------------------------------------------
-- Claim C7: 50 MiB upstream body cap, 20 MiB image cap, limits inclusive
-- ---------------------------------------------------------------------------

/-- With enough fuel, ASCII byte sequences decode to themselves. -/
theorem utf8Go_ascii : ∀ (l : List Nat) (fuel : Nat), l.length ≤ fuel →
    (∀ b ∈ l, b ≤ 127) → utf8Go fuel l = some l := by
  intro l
  induction l with
  | nil => intro fuel _ _; cases fuel <;> rfl
  | cons b rest ih =>
      intro fuel hf h
      cases fuel with
      | zero => simp at hf
      | succ f =>
          have hb : b ≤ 127 := h b (List.mem_cons_self b rest)
          have hone : utf8DecodeOne b rest = some (b, rest) := by
            unfold utf8DecodeOne; rw [if_pos hb]
          rw [utf8Go, hone]
          dsimp only
          rw [ih f (by simpa using hf) (fun x hx => h x (List.mem_cons_of_mem b hx))]
          rfl

/-- ASCII byte sequences decode to themselves. -/
theorem decodeUtf8_ascii (l : List Nat) (h : ∀ b ∈ l, b ≤ 127) :
    decodeUtf8 l = some l :=
  utf8Go_ascii l l.length le_rfl h

/-- Claim C7: the upstream client rejects a 2xx response with declared
`Content-Length` above 50 MiB or an actual body above 50 MiB with the
`Response too large` API fault; the image cache fetch rejects a declared
`Content-Length` or a downloaded body above 20 MiB with `File too large`;
in both components a body of exactly the limit passes the size checks. -/
theorem body_size_caps :
    (∀ (endpoint : String) (cl : Option Nat) (body : List Nat) (n : Nat),
      cl = some n → MAX_RESPONSE_BYTES < n →
        read_body_limited endpoint cl body =
          Except.error (NoteDeckError.Api endpoint 0 "Response too large")) ∧
    (∀ (endpoint : String) (cl : Option Nat) (body : List Nat),
      MAX_RESPONSE_BYTES < body.length →
        read_body_limited endpoint cl body =
          Except.error (NoteDeckError.Api endpoint 0 "Response too large")) ∧
    (∀ (endpoint : String) (body : List Nat),
      body.length = MAX_RESPONSE_BYTES → (∀ b ∈ body, b ≤ 127) →
        read_body_limited endpoint (some MAX_RESPONSE_BYTES) body = Except.ok body) ∧
    (∀ (p : String) (resp : ImgResponse) (n : Nat),
      200 ≤ resp.status → resp.status ≤ 299 →
      resp.content_length = some n → MAX_FILE_SIZE < n →
        fetch_and_cache p resp = Except.error "File too large") ∧
    (∀ (p : String) (resp : ImgResponse),
      200 ≤ resp.status → resp.status ≤ 299 →
      MAX_FILE_SIZE < resp.body.length →
        fetch_and_cache p resp = Except.error "File too large") ∧
    (∀ (p : String) (resp : ImgResponse),
      200 ≤ resp.status → resp.status ≤ 299 →
      resp.content_length = some MAX_FILE_SIZE →
      resp.body.length = MAX_FILE_SIZE →
        fetch_and_cache p resp =
          Except.ok ⟨p, resp.content_type.getD "application/octet-stream"⟩) := by
  refine ⟨?_, ?_, ?_, ?_, ?_, ?_⟩
  · intro endpoint cl body n hcl hn
    subst hcl
    unfold read_body_limited
    rw [if_pos (decide_eq_true hn)]
  · intro endpoint cl body hlen
    unfold read_body_limited
    cases cl with
    | none =>
        rw [if_neg (fun h => Bool.false_ne_true h)]
        rw [if_pos hlen]
    | some m =>
        by_cases hm : MAX_RESPONSE_BYTES < m
        · rw [if_pos (decide_eq_true hm)]
        · rw [if_neg (fun h => hm (of_decide_eq_true h)), if_pos hlen]
  · intro endpoint body hlen hascii
    unfold read_body_limited
    rw [if_neg (by simp), if_neg (by omega), decodeUtf8_ascii body hascii]
  · intro p resp n h1 h2 hcl hn
    unfold fetch_and_cache
    rw [if_neg (not_not_intro ⟨h1, h2⟩), if_pos (by rw [hcl]; exact decide_eq_true hn)]
  · intro p resp h1 h2 hlen
    unfold fetch_and_cache
    rw [if_neg (not_not_intro ⟨h1, h2⟩)]
    cases hcl : resp.content_length with
    | none =>
        rw [if_neg (fun h => Bool.false_ne_true h)]
        dsimp only
        rw [if_pos hlen]
    | some m =>
        by_cases hm : MAX_FILE_SIZE < m
        · rw [if_pos (decide_eq_true hm)]
        · rw [if_neg (fun h => hm (of_decide_eq_true h))]
          dsimp only
          rw [if_pos hlen]
  · intro p resp h1 h2 hcl hlen
    unfold fetch_and_cache
    rw [if_neg (not_not_intro ⟨h1, h2⟩),
      if_neg (by rw [hcl]; exact fun h => absurd (of_decide_eq_true h) (lt_irrefl _))]
    dsimp only
    rw [if_neg (by omega)]

/-- Claim C7 witness: a 50 MiB ASCII body passes the upstream size gate
and a 20 MiB body passes the image gate, both at exactly the limit. -/
theorem body_size_caps_witness :
    read_body_limited "notes/timeline" (some MAX_RESPONSE_BYTES)
        (List.replicate MAX_RESPONSE_BYTES 97) =
      Except.ok (List.replicate MAX_RESPONSE_BYTES 97) ∧
    fetch_and_cache "img.dat"
        ⟨200, some MAX_FILE_SIZE, none, List.replicate MAX_FILE_SIZE 0⟩ =
      Except.ok ⟨"img.dat", "application/octet-stream"⟩ :=
  ⟨body_size_caps.2.2.1 "notes/timeline" (List.replicate MAX_RESPONSE_BYTES 97)
      (by simp) (fun b hb => by rw [List.eq_of_mem_replicate hb]; omega),
    body_size_caps.2.2.2.2.2 "img.dat"
      ⟨200, some MAX_FILE_SIZE, none, List.replicate MAX_FILE_SIZE 0⟩
      (by decide) (by decide) rfl (by simp)⟩

-- ---------------------------------------------------------------------------
-- Claim C2: validate_host rejects the denylist, accepts public domains
-- ---------------------------------------------------------------------------

/-- `dropWhile` is the identity when no element satisfies the predicate. -/
theorem dropWhile_eq_self_of (p : Char → Bool) (l : List Char)
    (h : ∀ c ∈ l, p c = false) : l.dropWhile p = l := by
  cases l with
  | nil => rfl
  | cons c rest =>
      rw [List.dropWhile_cons, h c (List.mem_cons_self c rest)]
      simp

/-- Trimming a string with no whitespace is the identity. -/
theorem rustTrim_eq_self (l : List Char)
    (h : ∀ c ∈ l, rustIsWhitespace c = false) : rustTrim l = l := by
  unfold rustTrim
  rw [dropWhile_eq_self_of _ l h]
  rw [dropWhile_eq_self_of _ l.reverse (fun c hc => h c (List.mem_reverse.mp hc))]
  exact List.reverse_reverse l

/-- Host-alphabet characters are not whitespace. -/
theorem isHostChar_not_ws (c : Char) (h : isHostChar c = true) :
    rustIsWhitespace c = false := by
  simp only [isHostChar, decide_eq_true_eq] at h
  simp only [rustIsWhitespace, decide_eq_false_iff_not]
  omega

/-- Host-alphabet characters are unchanged by ASCII lowercasing. -/
theorem isHostChar_lower (c : Char) (h : isHostChar c = true) :
    asciiLowerChar c = c := by
  simp only [isHostChar, decide_eq_true_eq] at h
  unfold asciiLowerChar
  rw [if_neg (by omega)]

/-- Host-alphabet characters take one UTF-8 byte. -/
theorem isHostChar_bytes (c : Char) (h : isHostChar c = true) :
    utf8Bytes c = 1 := by
  simp only [isHostChar, decide_eq_true_eq] at h
  unfold utf8Bytes
  rw [if_pos (by omega)]

/-- Over the host alphabet the byte length equals the character count. -/
theorem utf8Len_eq_length (l : List Char)
    (h : ∀ c ∈ l, isHostChar c = true) : utf8Len l = l.length := by
  unfold utf8Len
  induction l with
  | nil => rfl
  | cons c rest ih =>
      rw [List.map_cons, List.sum_cons, isHostChar_bytes c (h c (List.mem_cons_self c rest)),
        ih (fun x hx => h x (List.mem_cons_of_mem c hx))]
      simp [Nat.add_comm]

/-- Normalization is the identity on host-alphabet strings. -/
theorem normalizeHostChars_eq_self (l : List Char)
    (h : ∀ c ∈ l, isHostChar c = true) : normalizeHostChars l = l := by
  unfold normalizeHostChars
  rw [rustTrim_eq_self l (fun c hc => isHostChar_not_ws c (h c hc))]
  conv_rhs => rw [← List.map_id l]
  exact List.map_congr_left (fun c hc => isHostChar_lower c (h c hc))

/-- Host-alphabet strings contain none of the rejected characters. -/
theorem containsBadChar_false (l : List Char)
    (h : ∀ c ∈ l, isHostChar c = true) : containsBadChar l = false := by
  unfold containsBadChar
  apply Bool.eq_false_iff.mpr
  intro hb
  rw [List.any_eq_true] at hb
  obtain ⟨c, hc, hmem⟩ := hb
  have hhc := h c hc
  have : c ∈ ['/', '?', '#', '@', ' ', '\n', '\r'] := of_decide_eq_true hmem
  fin_cases this <;> exact absurd hhc (by decide)

/-- `validate_host` either accepts with the normalized host (no reject
condition holding) or rejects with `INVALID_INPUT` (some reject condition
holding). -/
theorem validate_host_cases (s : String) :
    (validate_host s = Except.ok (String.mk (normalizeHostChars s.data)) ∧
      ¬ hostRejectCond (normalizeHostChars s.data)) ∨
    ((∃ m, validate_host s = Except.error (NoteDeckError.InvalidInput m)) ∧
      hostRejectCond (normalizeHostChars s.data)) := by
  unfold validate_host hostRejectCond
  by_cases h1 : (normalizeHostChars s.data).isEmpty = true
  · refine Or.inr ⟨⟨_, by rw [if_pos h1]⟩, Or.inl ?_⟩
    exact List.isEmpty_iff.mp h1
  · rw [if_neg h1]
    by_cases h2 : 253 < utf8Len (normalizeHostChars s.data)
    · exact Or.inr ⟨⟨_, by rw [if_pos h2]⟩, Or.inr (Or.inl h2)⟩
    · rw [if_neg h2]
      by_cases h3 : containsBadChar (normalizeHostChars s.data) = true
      · exact Or.inr ⟨⟨_, by rw [if_pos h3]⟩, Or.inr (Or.inr (Or.inl h3))⟩
      · rw [if_neg h3]
        by_cases h4 : ssrfBlocked (normalizeHostChars s.data) = true
        · exact Or.inr ⟨⟨_, by rw [if_pos h4]⟩, Or.inr (Or.inr (Or.inr (Or.inl h4)))⟩
        · rw [if_neg h4]
          by_cases h5 : octet172Blocked (normalizeHostChars s.data) = true
          · exact Or.inr ⟨⟨_, by rw [if_pos h5]⟩,
              Or.inr (Or.inr (Or.inr (Or.inr (Or.inl h5))))⟩
          · rw [if_neg h5]
            by_cases h6 : reservedSuffixBlocked (normalizeHostChars s.data) = true
            · exact Or.inr ⟨⟨_, by rw [if_pos h6]⟩,
                Or.inr (Or.inr (Or.inr (Or.inr (Or.inr h6))))⟩
            · rw [if_neg h6]
              refine Or.inl ⟨rfl, ?_⟩
              rintro (hc | hc | hc | hc | hc | hc)
              · exact h1 (by simp [hc])
              · exact h2 hc
              · exact h3 hc
              · exact h4 hc
              · exact h5 hc
              · exact h6 hc

/-- Claim C2: `validate_host` trims and ASCII-lowercases its input and
rejects with an `INVALID_INPUT` fault exactly when the normalized host is
empty, longer than 253 bytes, contains a rejected character, starts with a
denylist entry, is a `172.16/12` address, or ends with a reserved suffix;
and it accepts (returning the input unchanged) every string over
`[a-z0-9.-]` of length 1 to 253 matching none of the denylist conditions. -/
theorem validate_host_spec :
    (∀ s : String, hostRejectCond (normalizeHostChars s.data) →
      ∃ m, validate_host s = Except.error (NoteDeckError.InvalidInput m)) ∧
    (∀ s : String, (∀ c ∈ s.data, isHostChar c = true) →
      1 ≤ s.data.length → s.data.length ≤ 253 →
      ssrfBlocked s.data = false → octet172Blocked s.data = false →
      reservedSuffixBlocked s.data = false →
      validate_host s = Except.ok s) := by
  constructor
  · intro s hc
    rcases validate_host_cases s with ⟨_, hnc⟩ | ⟨hex, _⟩
    · exact absurd hc hnc
    · exact hex
  · intro s halpha hlen1 hlen2 hs1 hs2 hs3
    have hn : normalizeHostChars s.data = s.data := normalizeHostChars_eq_self s.data halpha
    rcases validate_host_cases s with ⟨hok, _⟩ | ⟨_, hc⟩
    · rw [hn] at hok
      exact hok
    · exfalso
      rw [hn] at hc
      rcases hc with hc | hc | hc | hc | hc | hc
      · rw [hc] at hlen1; simp at hlen1
      · rw [utf8Len_eq_length s.data halpha] at hc; omega
      · rw [containsBadChar_false s.data halpha] at hc; exact absurd hc (by simp)
      · rw [hs1] at hc; exact absurd hc (by simp)
      · rw [hs2] at hc; exact absurd hc (by simp)
      · rw [hs3] at hc; exact absurd hc (by simp)

/-- Claim C2 witness: a public domain is accepted unchanged; a loopback
address satisfies a reject condition and is rejected with
`INVALID_INPUT`. -/
theorem validate_host_spec_witness :
    validate_host "misskey.example.com" = Except.ok "misskey.example.com" ∧
    (∃ m, validate_host "127.0.0.1" = Except.error (NoteDeckError.InvalidInput m)) :=
  ⟨validate_host_spec.2 "misskey.example.com" (by decide) (by decide) (by decide)
      (by decide) (by decide) (by decide),
    validate_host_spec.1 "127.0.0.1" (by right; right; right; left; decide)⟩

-- ---------------------------------------------------------------------------
-- Claim C6: reconnect replays every registered subscription
-- ---------------------------------------------------------------------------

/-- A kept subscription stays in the registry across manager operations. -/
theorem applyStreamOp_keeps (reg : Registry) (op : StreamOp)
    (sid : String) (info : SubscriptionInfo)
    (hmem : (sid, info) ∈ reg) (hk : opKeeps sid info.account_id op) :
    (sid, info) ∈ applyStreamOp reg op := by
  cases op with
  | subscribeTimeline a h tt fresh =>
      unfold applyStreamOp
      dsimp only
      cases hch : ws_channel tt with
      | ok ch =>
          unfold registryInsert
          refine List.mem_append.mpr (Or.inl ?_)
          refine List.mem_filter.mpr ⟨hmem, ?_⟩
          simpa using fun hc => (hk hc.symm).elim
      | error e => exact hmem
  | subscribeMain a h fresh =>
      unfold applyStreamOp registryInsert
      dsimp only
      refine List.mem_append.mpr (Or.inl ?_)
      refine List.mem_filter.mpr ⟨hmem, ?_⟩
      simpa using fun hc => (hk hc.symm).elim
  | unsubscribe s =>
      unfold applyStreamOp
      dsimp only
      refine List.mem_filter.mpr ⟨hmem, ?_⟩
      simpa using fun hc => (hk hc.symm).elim
  | disconnect a =>
      unfold applyStreamOp
      dsimp only
      refine List.mem_filter.mpr ⟨hmem, ?_⟩
      simpa using fun hc => (hk hc.symm).elim
  | connEvent => exact hmem

/-- Manager operations preserve uniqueness of the registry keys. -/
theorem applyStreamOp_unique (reg : Registry) (op : StreamOp)
    (h : registryKeysUnique reg) : registryKeysUnique (applyStreamOp reg op) := by
  have hfilter : ∀ p : String × SubscriptionInfo → Bool,
      registryKeysUnique (reg.filter p) := by
    intro p
    unfold registryKeysUnique
    have h' : (reg.map fun e => e.1).Nodup := h
    exact ((reg.filter_sublist).map fun e => e.1).nodup h'
  have hinsert : ∀ (sid : String) (info : SubscriptionInfo),
      registryKeysUnique (registryInsert reg sid info) := by
    intro sid info
    unfold registryInsert registryKeysUnique
    rw [List.map_append, List.nodup_append]
    refine ⟨hfilter _, List.nodup_singleton _, ?_⟩
    intro k hk
    rw [List.mem_map] at hk
    obtain ⟨e, he, hke⟩ := hk
    have := (List.mem_filter.mp he).2
    simp only [List.map_cons, List.map_nil, List.mem_singleton]
    intro hkk
    subst hkk
    rw [hke] at this
    simp at this
  cases op with
  | subscribeTimeline a hh tt fresh =>
      unfold applyStreamOp
      dsimp only
      cases hch : ws_channel tt with
      | ok ch => exact hinsert fresh _
      | error e => exact h
  | subscribeMain a hh fresh => exact hinsert fresh _
  | unsubscribe s => exact hfilter _
  | disconnect a => exact hfilter _
  | connEvent => exact h

/-- Kept subscriptions survive a whole operation sequence. -/
theorem applyStreamOps_keeps (ops : List StreamOp) :
    ∀ (reg : Registry) (sid : String) (info : SubscriptionInfo),
      (sid, info) ∈ reg → registryKeysUnique reg →
      (∀ op ∈ ops, opKeeps sid info.account_id op) →
      (sid, info) ∈ applyStreamOps reg ops ∧
        registryKeysUnique (applyStreamOps reg ops) := by
  induction ops with
  | nil => intro reg sid info hmem hu _; exact ⟨hmem, hu⟩
  | cons op rest ih =>
      intro reg sid info hmem hu hk
      unfold applyStreamOps
      exact ih (applyStreamOp reg op) sid info
        (applyStreamOp_keeps reg op sid info hmem (hk op (List.mem_cons_self op rest)))
        (applyStreamOp_unique reg op hu)
        (fun o ho => hk o (List.mem_cons_of_mem op ho))

/-- In a key-unique registry, the replay sends exactly one connect frame
for a registered subscription of the session's account. -/
theorem replay_count_one (reg : Registry) (sid : String) (info : SubscriptionInfo)
    (hu : registryKeysUnique reg) (hmem : (sid, info) ∈ reg) :
    (run_ws_session_replay reg info.account_id).count ⟨info.channel, sid⟩ = 1 := by
  unfold run_ws_session_replay
  induction reg with
  | nil => cases hmem
  | cons e rest ih =>
      rw [registryKeysUnique, List.map_cons, List.nodup_cons] at hu
      rcases List.mem_cons.mp hmem with he | he
      · subst he
        rw [List.filter_cons]
        simp only [beq_self_eq_true, if_pos]
        rw [List.map_cons, List.count_cons_self]
        have hz : ((rest.filter fun e => e.2.account_id == info.account_id).map
            fun e => (⟨e.2.channel, e.1⟩ : ConnectFrame)).count ⟨info.channel, sid⟩ = 0 := by
          rw [List.count_eq_zero]
          intro hc
          rw [List.mem_map] at hc
          obtain ⟨x, hx, hxf⟩ := hc
          have hxid : x.1 = sid := congrArg ConnectFrame.id hxf
          exact hu.1 (List.mem_map.mpr ⟨x, (List.mem_filter.mp hx).1, hxid⟩)
        omega
      · rw [List.filter_cons]
        have hcount := ih hu.2 he
        by_cases hacc : (e.2.account_id == info.account_id) = true
        · rw [if_pos hacc, List.map_cons, List.count_cons]
          have hne : (⟨e.2.channel, e.1⟩ : ConnectFrame) ≠ ⟨info.channel, sid⟩ := by
            intro hc
            have : e.1 = sid := congrArg ConnectFrame.id hc
            exact hu.1 (List.mem_map.mpr ⟨(sid, info), he, this.symm ▸ rfl⟩)
          rw [hcount]
          simp [hne]
        · rw [if_neg hacc]
          exact hcount

/-- Claim C6: a subscription created by `subscribe_timeline` (or
`subscribe_main`, with `channel = "main"`) under a fresh id, and not
removed by any later manager operation — in particular not by forced
disconnects, reconnects, or Subscribe/Unsubscribe commands dropped during
the backoff wait, which never touch the registry — is replayed by the next
`run_ws_session` before its message loop as exactly one
`{"type":"connect","body":{"channel":channel,"id":id}}` frame carrying the
original subscription id and channel. -/
theorem reconnect_replay_spec :
    ∀ (reg : Registry) (ops : List StreamOp) (sid : String)
      (info : SubscriptionInfo) (sub : StreamOp),
      registryKeysUnique reg →
      (∀ e ∈ reg, e.1 ≠ sid) →
      ((∃ tt, sub = StreamOp.subscribeTimeline info.account_id info.host tt sid ∧
          ws_channel tt = Except.ok info.channel ∧ info.kind = "timeline") ∨
        (sub = StreamOp.subscribeMain info.account_id info.host sid ∧
          info.kind = "main" ∧ info.channel = "main")) →
      (∀ op ∈ ops, opKeeps sid info.account_id op) →
      (run_ws_session_replay (applyStreamOps (applyStreamOp reg sub) ops)
          info.account_id).count ⟨info.channel, sid⟩ = 1 := by
  intro reg ops sid info sub hu hfresh hsub hk
  have hins : applyStreamOp reg sub = registryInsert reg sid info := by
    rcases hsub with ⟨tt, hs, hch, hkind⟩ | ⟨hs, hkind, hch⟩
    · subst hs
      unfold applyStreamOp
      dsimp only
      rw [hch]
      obtain ⟨a, h, k, c⟩ := info
      simp only at hkind
      rw [hkind]
    · subst hs
      unfold applyStreamOp
      dsimp only
      obtain ⟨a, h, k, c⟩ := info
      simp only at hkind hch
      rw [hkind, hch]
  rw [hins]
  have hmem : (sid, info) ∈ registryInsert reg sid info := by
    unfold registryInsert
    exact List.mem_append.mpr (Or.inr (List.mem_singleton.mpr rfl))
  have hu' : registryKeysUnique (registryInsert reg sid info) := by
    unfold registryInsert registryKeysUnique
    rw [List.map_append, List.nodup_append]
    have hu2 : (reg.map fun e => e.1).Nodup := hu
    refine ⟨((reg.filter_sublist).map fun e => e.1).nodup hu2, List.nodup_singleton _, ?_⟩
    intro k hk'
    rw [List.mem_map] at hk'
    obtain ⟨e, he, hke⟩ := hk'
    have := hfresh e (List.mem_filter.mp he).1
    simp only [List.map_cons, List.map_nil, List.mem_singleton]
    intro hkk
    exact this (hkk ▸ hke)
  obtain ⟨hmem', hu''⟩ := applyStreamOps_keeps ops (registryInsert reg sid info) sid info
    hmem hu' hk
  exact replay_count_one _ sid info hu'' hmem'

/-- Claim C6 witness: concretely, a home-timeline subscription survives a
forced disconnect with a dropped command during backoff, and the replay
sends exactly one connect frame `{channel := "homeTimeline", id := "S1"}`. -/
theorem reconnect_replay_spec_witness :
    (run_ws_session_replay
        (applyStreamOps
          (applyStreamOp []
            (StreamOp.subscribeTimeline "A" "h.example" "home" "S1"))
          [StreamOp.connEvent, StreamOp.connEvent])
        "A").count ⟨"homeTimeline", "S1"⟩ = 1 :=
  reconnect_replay_spec [] [StreamOp.connEvent, StreamOp.connEvent] "S1"
    ⟨"A", "h.example", "timeline", "homeTimeline"⟩
    (StreamOp.subscribeTimeline "A" "h.example" "home" "S1")
    List.Pairwise.nil (by intro e he; cases he)
    (Or.inl ⟨"home", rfl, rfl, rfl⟩)
    (by intro op hop; fin_cases hop <;> trivial)

-- ---------------------------------------------------------------------------
-- Claim C8: cache_notes upserts by (note_id, account_id), LWW
-- ---------------------------------------------------------------------------

/-- On a key conflict the prepared statement rewrites exactly the matching
row, replacing only `note_json` and `cached_at`. -/
theorem upsertNoteRow_conflict (tbl₁ tbl₂ : List NoteRow) (r : NoteRow)
    (n : NormalizedNote) (now : Nat)
    (huniq : notesKeyUnique (tbl₁ ++ r :: tbl₂)) (hkey : noteKeyMatch r n = true) :
    upsertNoteRow (tbl₁ ++ r :: tbl₂) n now =
      tbl₁ ++ { r with note_json := n, cached_at := now } :: tbl₂ := by
  have hkey' : r.note_id = n.core.id ∧ r.account_id = n.core.account_id := by
    simpa [noteKeyMatch] using hkey
  have hany : (tbl₁ ++ r :: tbl₂).any (fun x => noteKeyMatch x n) = true := by
    rw [List.any_eq_true]
    exact ⟨r, by simp, hkey⟩
  have hothers : ∀ x ∈ tbl₁ ++ tbl₂, noteKeyMatch x n = false := by
    intro x hx
    rw [notesKeyUnique, List.pairwise_append] at huniq
    rcases List.mem_append.mp hx with h1 | h2
    · have hx' := huniq.2.2 x h1 r (by simp)
      have : ¬(x.note_id = n.core.id ∧ x.account_id = n.core.account_id) := fun hc =>
        hx' ⟨hc.1.trans hkey'.1.symm, hc.2.trans hkey'.2.symm⟩
      simpa [noteKeyMatch] using this
    · have hx' := (List.pairwise_cons.mp huniq.2.1).1 x h2
      have : ¬(x.note_id = n.core.id ∧ x.account_id = n.core.account_id) := fun hc =>
        hx' ⟨hkey'.1.trans hc.1.symm, hkey'.2.trans hc.2.symm⟩
      simpa [noteKeyMatch] using this
  unfold upsertNoteRow
  rw [if_pos hany]
  have hupd₁ : tbl₁.map (fun x => if noteKeyMatch x n then
      { x with note_json := n, cached_at := now } else x) = tbl₁ := by
    conv_rhs => rw [← List.map_id tbl₁]
    refine List.map_congr_left ?_
    intro x hx
    simp [hothers x (List.mem_append.mpr (Or.inl hx))]
  have hupd₂ : tbl₂.map (fun x => if noteKeyMatch x n then
      { x with note_json := n, cached_at := now } else x) = tbl₂ := by
    conv_rhs => rw [← List.map_id tbl₂]
    refine List.map_congr_left ?_
    intro x hx
    simp [hothers x (List.mem_append.mpr (Or.inr hx))]
  rw [List.map_append, List.map_cons, hupd₁, hupd₂]
  simp [hkey]

/-- Without a key conflict the statement appends a full new row carrying
all indexing columns of the note. -/
theorem upsertNoteRow_insert (tbl : List NoteRow) (n : NormalizedNote) (now : Nat)
    (h : ∀ x ∈ tbl, noteKeyMatch x n = false) :
    upsertNoteRow tbl n now =
      tbl ++ [{ note_id := n.core.id, account_id := n.core.account_id,
                server_host := n.core.server_host, created_at := n.core.created_at,
                text := n.core.text, note_json := n, cached_at := now }] := by
  unfold upsertNoteRow
  rw [if_neg ?hneg]
  case hneg =>
    intro hc
    rw [List.any_eq_true] at hc
    obtain ⟨x, hx, hp⟩ := hc
    rw [h x hx] at hp
    exact absurd hp (by simp)

/-- After upserting `n`, looking up `n`'s key yields `n`. -/
theorem lookup_upsert_self (tbl : List NoteRow) (n : NormalizedNote) (now : Nat) :
    lookupNoteJson (upsertNoteRow tbl n now) n.core.id n.core.account_id = some n := by
  unfold upsertNoteRow
  by_cases hany : tbl.any (fun x => noteKeyMatch x n) = true
  · rw [if_pos hany]
    unfold lookupNoteJson
    rw [List.any_eq_true] at hany
    induction tbl with
    | nil => obtain ⟨x, hx, _⟩ := hany; cases hx
    | cons r rest ih =>
        rw [List.map_cons]
        cases hm : noteKeyMatch r n with
        | true =>
            rw [List.find?_cons_of_pos]
            · simp
            · simpa [noteKeyMatch] using hm
        | false =>
            rw [if_neg (by simp [hm]), List.find?_cons_of_neg]
            · refine ih ?_
              rcases hany with ⟨x, hx, hp⟩
              rcases List.mem_cons.mp hx with hxr | hxr
              · subst hxr; rw [hm] at hp; exact absurd hp (by simp)
              · exact ⟨x, hxr, hp⟩
            · simpa [noteKeyMatch] using hm
  · rw [if_neg hany]
    unfold lookupNoteJson
    have hnone : tbl.find? (fun r => r.note_id == n.core.id &&
        r.account_id == n.core.account_id) = none := by
      rw [List.find?_eq_none]
      intro x hx hp
      have : noteKeyMatch x n = true := by simpa [noteKeyMatch] using hp
      rw [List.any_eq_true] at hany
      exact hany ⟨x, hx, this⟩
    rw [List.find?_append, hnone]
    simp [noteKeyMatch]

/-- The conflict update rewrites `note_json` only under the note's own
key: under any other key the mapped table stores the same JSON. -/
theorem lookup_map_upd (tbl : List NoteRow) (n : NormalizedNote) (now : Nat)
    (k1 k2 : String) (hne : ¬(n.core.id = k1 ∧ n.core.account_id = k2)) :
    ((tbl.map fun x => if noteKeyMatch x n then
        { x with note_json := n, cached_at := now } else x).find?
      (fun r => r.note_id == k1 && r.account_id == k2)).map NoteRow.note_json =
    (tbl.find? (fun r => r.note_id == k1 && r.account_id == k2)).map
      NoteRow.note_json := by
  induction tbl with
  | nil => rfl
  | cons r rest ih =>
      rw [List.map_cons]
      have hkeys : (if noteKeyMatch r n then
          { r with note_json := n, cached_at := now } else r).note_id = r.note_id ∧
          (if noteKeyMatch r n then
          { r with note_json := n, cached_at := now } else r).account_id = r.account_id := by
        split <;> exact ⟨rfl, rfl⟩
      cases hp : (r.note_id == k1 && r.account_id == k2) with
      | false =>
          rw [List.find?_cons_of_neg _ (by simp [hkeys.1, hkeys.2, hp]),
            List.find?_cons_of_neg _ (by simp [hp])]
          exact ih
      | true =>
          rw [List.find?_cons_of_pos _ (by simp [hkeys.1, hkeys.2, hp]),
            List.find?_cons_of_pos _ (by simp [hp])]
          cases hm : noteKeyMatch r n with
          | false => rw [if_neg (by simp [hm])]
          | true =>
              exfalso
              have hrk : r.note_id = n.core.id ∧ r.account_id = n.core.account_id := by
                simpa [noteKeyMatch] using hm
              have hpk : r.note_id = k1 ∧ r.account_id = k2 := by
                simpa using hp
              exact hne ⟨hrk.1.symm.trans hpk.1, hrk.2.symm.trans hpk.2⟩

/-- Upserting `n` does not change the stored JSON under any other key. -/
theorem lookup_upsert_other (tbl : List NoteRow) (n : NormalizedNote) (now : Nat)
    (k1 k2 : String) (hne : ¬(n.core.id = k1 ∧ n.core.account_id = k2)) :
    lookupNoteJson (upsertNoteRow tbl n now) k1 k2 = lookupNoteJson tbl k1 k2 := by
  unfold upsertNoteRow
  by_cases hany : tbl.any (fun x => noteKeyMatch x n) = true
  · rw [if_pos hany]
    unfold lookupNoteJson
    exact lookup_map_upd tbl n now k1 k2 hne
  · rw [if_neg hany]
    unfold lookupNoteJson
    rw [List.find?_append]
    have hrow : (List.find? (fun r : NoteRow => r.note_id == k1 && r.account_id == k2)
        [{ note_id := n.core.id, account_id := n.core.account_id,
           server_host := n.core.server_host, created_at := n.core.created_at,
           text := n.core.text, note_json := n, cached_at := now }]) = none := by
      apply List.find?_eq_none.mpr
      intro x hx
      rw [List.mem_singleton] at hx
      subst hx
      intro hp
      simp only [Bool.and_eq_true, beq_iff_eq] at hp
      exact hne hp
    rw [hrow, Option.or_none]

/-- The upsert preserves primary-key uniqueness of the notes table. -/
theorem upsertNoteRow_unique (tbl : List NoteRow) (n : NormalizedNote) (now : Nat)
    (h : notesKeyUnique tbl) : notesKeyUnique (upsertNoteRow tbl n now) := by
  unfold upsertNoteRow
  by_cases hany : tbl.any (fun x => noteKeyMatch x n) = true
  · rw [if_pos hany]
    refine List.Pairwise.map _ ?_ h
    intro r s hrs
    by_cases h1 : noteKeyMatch r n = true <;> by_cases h2 : noteKeyMatch s n = true <;>
      simp [h1, h2] at * <;> tauto
  · rw [if_neg hany]
    rw [notesKeyUnique, List.pairwise_append]
    refine ⟨h, List.pairwise_singleton _ _, ?_⟩
    intro r hr x hx
    rw [List.mem_singleton] at hx
    subst hx
    rw [List.any_eq_true] at hany
    have hfalse : noteKeyMatch r n = false := by
      cases hm : noteKeyMatch r n with
      | true => exact absurd ⟨r, hr, hm⟩ hany
      | false => rfl
    simp only [noteKeyMatch, Bool.and_eq_false_iff, beq_eq_false_iff_ne] at hfalse
    intro hc
    rcases hfalse with hf | hf
    · exact hf hc.1
    · exact hf hc.2

/-- Any write sequence starting from the empty table keeps the primary key
unique. -/
theorem runNoteWrites_unique (ws : List (NormalizedNote × Nat)) :
    ∀ tbl : List NoteRow, notesKeyUnique tbl → notesKeyUnique (runNoteWrites tbl ws) := by
  induction ws with
  | nil => intro tbl h; exact h
  | cons w rest ih =>
      intro tbl h
      exact ih (upsertNoteRow tbl w.1 w.2) (upsertNoteRow_unique tbl w.1 w.2 h)

/-- One `cache_notes` call is the corresponding write sequence with the
single timestamp taken at the start of the call. -/
theorem cache_notes_eq_writes (notes : List NormalizedNote) (now : Nat) :
    ∀ tbl : List NoteRow,
      cache_notes tbl notes now = runNoteWrites tbl (notes.map fun n => (n, now)) := by
  induction notes with
  | nil => intro tbl; rfl
  | cons n rest ih =>
      intro tbl
      have h := ih (upsertNoteRow tbl n now)
      unfold cache_notes at h ⊢
      rw [List.foldl_cons, List.map_cons]
      unfold runNoteWrites
      exact h

/-- Last-writer-wins: after any write sequence, the stored JSON under each
key is the note of the last write with that key (or what the initial table
stored when no write touched the key). -/
theorem runNoteWrites_lww (ws : List (NormalizedNote × Nat)) :
    ∀ (tbl : List NoteRow) (k1 k2 : String),
      lookupNoteJson (runNoteWrites tbl ws) k1 k2 =
        ws.foldl
          (fun acc w =>
            if w.1.core.id = k1 ∧ w.1.core.account_id = k2 then some w.1 else acc)
          (lookupNoteJson tbl k1 k2) := by
  induction ws with
  | nil => intro tbl k1 k2; rfl
  | cons w rest ih =>
      intro tbl k1 k2
      obtain ⟨n, now⟩ := w
      unfold runNoteWrites
      rw [List.foldl_cons, ih (upsertNoteRow tbl n now) k1 k2]
      by_cases hkey : n.core.id = k1 ∧ n.core.account_id = k2
      · rw [if_pos hkey]
        congr 1
        rw [← hkey.1, ← hkey.2]
        exact lookup_upsert_self tbl n now
      · rw [if_neg hkey]
        congr 1
        exact lookup_upsert_other tbl n now k1 k2 hkey

/-- Claim C8: `cache_notes` upserts each note keyed by
`(note_id, account_id)`: a new key stores all indexing columns; a conflict
replaces only `note_json` and `cached_at` while `server_host`, `created_at`
and `text` stay those of the existing row and every other row is
untouched; the primary key stays unique; and for any interleaving of
writes (serialized by the store mutex) the stored JSON per key is the last
writer's. -/
theorem cache_notes_spec :
    (∀ (tbl₁ tbl₂ : List NoteRow) (r : NoteRow) (n : NormalizedNote) (now : Nat),
      notesKeyUnique (tbl₁ ++ r :: tbl₂) → noteKeyMatch r n = true →
      upsertNoteRow (tbl₁ ++ r :: tbl₂) n now =
          tbl₁ ++ { r with note_json := n, cached_at := now } :: tbl₂ ∧
        ({ r with note_json := n, cached_at := now }).server_host = r.server_host ∧
        ({ r with note_json := n, cached_at := now }).created_at = r.created_at ∧
        ({ r with note_json := n, cached_at := now }).text = r.text) ∧
    (∀ (tbl : List NoteRow) (n : NormalizedNote) (now : Nat),
      (∀ x ∈ tbl, noteKeyMatch x n = false) →
      upsertNoteRow tbl n now =
        tbl ++ [{ note_id := n.core.id, account_id := n.core.account_id,
                  server_host := n.core.server_host, created_at := n.core.created_at,
                  text := n.core.text, note_json := n, cached_at := now }]) ∧
    (∀ (notes : List NormalizedNote) (now : Nat) (tbl : List NoteRow),
      cache_notes tbl notes now = runNoteWrites tbl (notes.map fun n => (n, now))) ∧
    (∀ ws : List (NormalizedNote × Nat), notesKeyUnique (runNoteWrites [] ws)) ∧
    (∀ (ws : List (NormalizedNote × Nat)) (k1 k2 : String),
      lookupNoteJson (runNoteWrites [] ws) k1 k2 =
        ws.foldl
          (fun acc w =>
            if w.1.core.id = k1 ∧ w.1.core.account_id = k2 then some w.1 else acc)
          none) := by
  refine ⟨?_, upsertNoteRow_insert, cache_notes_eq_writes, ?_, ?_⟩
  · intro tbl₁ tbl₂ r n now hu hk
    exact ⟨upsertNoteRow_conflict tbl₁ tbl₂ r n now hu hk, rfl, rfl, rfl⟩
  · intro ws
    exact runNoteWrites_unique ws [] List.Pairwise.nil
  · intro ws k1 k2
    exact runNoteWrites_lww ws [] k1 k2

/-- Claim C8 witness: re-caching a note with the same key but a new JSON
(even one carrying a different `server_host`, `created_at` and `text`)
replaces only the stored JSON and timestamp of the existing row. -/
theorem cache_notes_spec_witness :
    upsertNoteRow
        ([] ++ ({ note_id := "n1", account_id := "a1", server_host := "h.example",
                  created_at := "2024", text := some "old",
                  note_json := mkSampleNote "n1" "a1" "h.example" "2024" (some "old"),
                  cached_at := 100 } : NoteRow) :: [])
        (mkSampleNote "n1" "a1" "h2.example" "2025" (some "new")) 200 =
      [] ++ ({ note_id := "n1", account_id := "a1", server_host := "h.example",
               created_at := "2024", text := some "old",
               note_json := mkSampleNote "n1" "a1" "h2.example" "2025" (some "new"),
               cached_at := 200 } : NoteRow) :: [] :=
  (cache_notes_spec.1 [] []
    ({ note_id := "n1", account_id := "a1", server_host := "h.example",
       created_at := "2024", text := some "old",
       note_json := mkSampleNote "n1" "a1" "h.example" "2024" (some "old"),
       cached_at := 100 } : NoteRow)
    (mkSampleNote "n1" "a1" "h2.example" "2025" (some "new")) 200
    (by simp [notesKeyUnique]) (by decide)).1

-- ---------------------------------------------------------------------------
-- Claim C3: single-flight image fetch
-- ---------------------------------------------------------------------------

/-- The invariant holds initially. -/
theorem sfInv_init : SFInv sfInit := by
  refine ⟨?_, ?_, ?_, ?_, ?_, ?_, ?_, ?_⟩
  · intro c _
    exact ⟨rfl, by simp [sfInit], fun i => by simp [sfInit, CallerPc.chanOf]⟩
  · intro c h
    simp [sfInit] at h
  · intro i j ci cj hi hj
    simp [sfInit, CallerPc.activeOwnerOf] at hi
  · intro i c hi
    simp [sfInit, CallerPc.activeOwnerOf] at hi
  · intro i c r hi
    simp [sfInit] at hi
  · intro i c hi
    rcases hi with h | h | ⟨r, h⟩ <;> simp [sfInit] at h
  · intro i c r hi
    rcases hi with h | h | h <;> simp [sfInit] at h
  · intro i c r hi
    simp [sfInit] at hi

/-- A pre-publish owner of channel `c` is an active owner of `c`. -/
theorem CallerPc.prePublish_active (pc : CallerPc) (c : Nat)
    (h : pc.prePublishOn c) : pc.activeOwnerOf = some c := by
  rcases h with h | h | ⟨r, h⟩ <;> subst h <;> rfl

/-- A referenced channel generation is already allocated. -/
theorem SFInv.ref_lt {s : SFState} (hinv : SFInv s) {i c : Nat}
    (h : (s.callers i).chanOf = some c) : c < s.nextChan := by
  by_contra hge
  exact (hinv.F c (Nat.le_of_not_lt hge)).2.2 i h

/-- Every step of the single-flight system preserves the invariant. -/
theorem sfInv_step {s s' : SFState} (hstep : sfStep s s') (hinv : SFInv s) :
    SFInv s' := by
  obtain ⟨F, E, U, O, R, Q, P, W⟩ := hinv
  cases hstep with
  | hit i e hpc hcache =>
      refine ⟨?_, E, ?_, ?_, ?_, ?_, ?_, ?_⟩ <;> (try dsimp only)
      · intro c hc
        obtain ⟨h1, h2, h3⟩ := F c hc
        refine ⟨h1, h2, fun j => ?_⟩
        by_cases hji : i = j
        · subst hji; rw [Function.update_same]; simp [CallerPc.chanOf]
        · rw [Function.update_noteq (Ne.symm hji)]; exact h3 j
      · intro j k cj ck hj hk
        by_cases hji : i = j
        · subst hji; rw [Function.update_same] at hj
          simp [CallerPc.activeOwnerOf] at hj
        · rw [Function.update_noteq (Ne.symm hji)] at hj
          by_cases hki : i = k
          · subst hki; rw [Function.update_same] at hk
            simp [CallerPc.activeOwnerOf] at hk
          · rw [Function.update_noteq (Ne.symm hki)] at hk
            exact U j k cj ck hj hk
      · intro j c hj
        by_cases hji : i = j
        · subst hji; rw [Function.update_same] at hj
          simp [CallerPc.activeOwnerOf] at hj
        · rw [Function.update_noteq (Ne.symm hji)] at hj
          exact O j c hj
      · intro j c r hj
        by_cases hji : i = j
        · subst hji; rw [Function.update_same] at hj; simp at hj
        · rw [Function.update_noteq (Ne.symm hji)] at hj
          exact R j c r hj
      · intro j c hj
        by_cases hji : i = j
        · subst hji; rw [Function.update_same] at hj
          simp [CallerPc.prePublishOn] at hj
        · rw [Function.update_noteq (Ne.symm hji)] at hj
          exact Q j c hj
      · intro j c r hj
        by_cases hji : i = j
        · subst hji; rw [Function.update_same] at hj
          rcases hj with h | h | h <;> simp at h
        · rw [Function.update_noteq (Ne.symm hji)] at hj
          exact P j c r hj
      · intro j c r hj
        by_cases hji : i = j
        · subst hji; rw [Function.update_same] at hj; simp at hj
        · rw [Function.update_noteq (Ne.symm hji)] at hj
          exact W j c r hj
  | missed i hpc hcache =>
      refine ⟨?_, E, ?_, ?_, ?_, ?_, ?_, ?_⟩ <;> (try dsimp only)
      · intro c hc
        obtain ⟨h1, h2, h3⟩ := F c hc
        refine ⟨h1, h2, fun j => ?_⟩
        by_cases hji : i = j
        · subst hji; rw [Function.update_same]; simp [CallerPc.chanOf]
        · rw [Function.update_noteq (Ne.symm hji)]; exact h3 j
      · intro j k cj ck hj hk
        by_cases hji : i = j
        · subst hji; rw [Function.update_same] at hj
          simp [CallerPc.activeOwnerOf] at hj
        · rw [Function.update_noteq (Ne.symm hji)] at hj
          by_cases hki : i = k
          · subst hki; rw [Function.update_same] at hk
            simp [CallerPc.activeOwnerOf] at hk
          · rw [Function.update_noteq (Ne.symm hki)] at hk
            exact U j k cj ck hj hk
      · intro j c hj
        by_cases hji : i = j
        · subst hji; rw [Function.update_same] at hj
          simp [CallerPc.activeOwnerOf] at hj
        · rw [Function.update_noteq (Ne.symm hji)] at hj
          exact O j c hj
      · intro j c r hj
        by_cases hji : i = j
        · subst hji; rw [Function.update_same] at hj; simp at hj
        · rw [Function.update_noteq (Ne.symm hji)] at hj
          exact R j c r hj
      · intro j c hj
        by_cases hji : i = j
        · subst hji; rw [Function.update_same] at hj
          simp [CallerPc.prePublishOn] at hj
        · rw [Function.update_noteq (Ne.symm hji)] at hj
          exact Q j c hj
      · intro j c r hj
        by_cases hji : i = j
        · subst hji; rw [Function.update_same] at hj
          rcases hj with h | h | h <;> simp at h
        · rw [Function.update_noteq (Ne.symm hji)] at hj
          exact P j c r hj
      · intro j c r hj
        by_cases hji : i = j
        · subst hji; rw [Function.update_same] at hj; simp at hj
        · rw [Function.update_noteq (Ne.symm hji)] at hj
          exact W j c r hj
  | join i c0 hpc hin =>
      refine ⟨?_, E, ?_, ?_, ?_, ?_, ?_, ?_⟩ <;> (try dsimp only)
      · intro c hc
        obtain ⟨h1, h2, h3⟩ := F c hc
        refine ⟨h1, h2, fun j => ?_⟩
        by_cases hji : i = j
        · subst hji; rw [Function.update_same]
          simp only [CallerPc.chanOf, ne_eq, Option.some.injEq]
          intro heq
          have := E c0 hin
          omega
        · rw [Function.update_noteq (Ne.symm hji)]; exact h3 j
      · intro j k cj ck hj hk
        by_cases hji : i = j
        · subst hji; rw [Function.update_same] at hj
          simp [CallerPc.activeOwnerOf] at hj
        · rw [Function.update_noteq (Ne.symm hji)] at hj
          by_cases hki : i = k
          · subst hki; rw [Function.update_same] at hk
            simp [CallerPc.activeOwnerOf] at hk
          · rw [Function.update_noteq (Ne.symm hki)] at hk
            exact U j k cj ck hj hk
      · intro j c hj
        by_cases hji : i = j
        · subst hji; rw [Function.update_same] at hj
          simp [CallerPc.activeOwnerOf] at hj
        · rw [Function.update_noteq (Ne.symm hji)] at hj
          exact O j c hj
      · intro j c r hj
        by_cases hji : i = j
        · subst hji; rw [Function.update_same] at hj; simp at hj
        · rw [Function.update_noteq (Ne.symm hji)] at hj
          exact R j c r hj
      · intro j c hj
        by_cases hji : i = j
        · subst hji; rw [Function.update_same] at hj
          simp [CallerPc.prePublishOn] at hj
        · rw [Function.update_noteq (Ne.symm hji)] at hj
          exact Q j c hj
      · intro j c r hj
        by_cases hji : i = j
        · subst hji; rw [Function.update_same] at hj
          rcases hj with h | h | h <;> simp at h
        · rw [Function.update_noteq (Ne.symm hji)] at hj
          exact P j c r hj
      · intro j c r hj
        by_cases hji : i = j
        · subst hji; rw [Function.update_same] at hj; simp at hj
        · rw [Function.update_noteq (Ne.symm hji)] at hj
          exact W j c r hj
  | insertLead i hpc hin =>
      refine ⟨?_, ?_, ?_, ?_, ?_, ?_, ?_, ?_⟩ <;> (try dsimp only)
      · intro c hc
        have hlt : s.nextChan < c := hc
        obtain ⟨h1, h2, h3⟩ := F c (by omega)
        refine ⟨h1, ?_, fun j => ?_⟩
        · simp only [ne_eq, Option.some.injEq]
          omega
        · by_cases hji : i = j
          · subst hji; rw [Function.update_same]
            simp only [CallerPc.chanOf, ne_eq, Option.some.injEq]
            omega
          · rw [Function.update_noteq (Ne.symm hji)]; exact h3 j
      · intro c h
        simp only [Option.some.injEq] at h
        omega
      · intro j k cj ck hj hk
        by_cases hji : i = j
        · subst hji
          by_cases hki : i = k
          · subst hki; rfl
          · rw [Function.update_noteq (Ne.symm hki)] at hk
            exact absurd ((O k ck hk).1.symm.trans hin) (by simp)
        · rw [Function.update_noteq (Ne.symm hji)] at hj
          exact absurd ((O j cj hj).1.symm.trans hin) (by simp)
      · intro j c hj
        by_cases hji : i = j
        · subst hji; rw [Function.update_same] at hj
          simp only [CallerPc.activeOwnerOf, Option.some.injEq] at hj
          subst hj
          refine ⟨rfl, ?_⟩
          rw [(F s.nextChan le_rfl).1]
        · rw [Function.update_noteq (Ne.symm hji)] at hj
          exact absurd ((O j c hj).1.symm.trans hin) (by simp)
      · intro j c r hj
        by_cases hji : i = j
        · subst hji; rw [Function.update_same] at hj; simp at hj
        · rw [Function.update_noteq (Ne.symm hji)] at hj
          have hcref : c < s.nextChan := by
            by_contra hge
            exact (F c (Nat.le_of_not_lt hge)).2.2 j (by rw [hj]; simp [CallerPc.chanOf])
          simp only [ne_eq, Option.some.injEq]
          omega
      · intro j c hj
        by_cases hji : i = j
        · subst hji; rw [Function.update_same] at hj
          have hc : s.nextChan = c := by
            rcases hj with h | h | ⟨r, h⟩ <;> simp at h <;> (first | exact h | exact h.1)
          subst hc
          rw [(F s.nextChan le_rfl).1]
        · rw [Function.update_noteq (Ne.symm hji)] at hj
          exact Q j c hj
      · intro j c r hj
        by_cases hji : i = j
        · subst hji; rw [Function.update_same] at hj
          rcases hj with h | h | h <;> simp at h
        · rw [Function.update_noteq (Ne.symm hji)] at hj
          exact P j c r hj
      · intro j c r hj
        by_cases hji : i = j
        · subst hji; rw [Function.update_same] at hj; simp at hj
        · rw [Function.update_noteq (Ne.symm hji)] at hj
          exact W j c r hj
  | startFetch i c0 hpc =>
      refine ⟨?_, E, ?_, ?_, ?_, ?_, ?_, ?_⟩ <;> (try dsimp only)
      · intro c hc
        obtain ⟨h1, h2, h3⟩ := F c hc
        refine ⟨h1, h2, fun j => ?_⟩
        by_cases hji : i = j
        · subst hji; rw [Function.update_same]
          have hold := h3 i
          rw [hpc] at hold
          simpa [CallerPc.chanOf] using hold
        · rw [Function.update_noteq (Ne.symm hji)]; exact h3 j
      · intro j k cj ck hj hk
        by_cases hji : i = j
        · subst hji; rw [Function.update_same] at hj
          simp only [CallerPc.activeOwnerOf, Option.some.injEq] at hj
          by_cases hki : i = k
          · subst hki; rfl
          · rw [Function.update_noteq (Ne.symm hki)] at hk
            exact U i k cj ck (by rw [hpc, ← hj]; rfl) hk
        · rw [Function.update_noteq (Ne.symm hji)] at hj
          by_cases hki : i = k
          · subst hki; rw [Function.update_same] at hk
            simp only [CallerPc.activeOwnerOf, Option.some.injEq] at hk
            exact U j i cj ck hj (by rw [hpc, ← hk]; rfl)
          · rw [Function.update_noteq (Ne.symm hki)] at hk
            exact U j k cj ck hj hk
      · intro j c hj
        by_cases hji : i = j
        · subst hji; rw [Function.update_same] at hj
          simp only [CallerPc.activeOwnerOf, Option.some.injEq] at hj
          exact O i c (by rw [hpc, ← hj]; rfl)
        · rw [Function.update_noteq (Ne.symm hji)] at hj
          exact O j c hj
      · intro j c r hj
        by_cases hji : i = j
        · subst hji; rw [Function.update_same] at hj; simp at hj
        · rw [Function.update_noteq (Ne.symm hji)] at hj
          exact R j c r hj
      · intro j c hj
        by_cases hji : i = j
        · subst hji; rw [Function.update_same] at hj
          have hc : c0 = c := by
            rcases hj with h | h | ⟨r, h⟩ <;> simp at h <;> (first | exact h | exact h.1)
          subst hc
          exact Q i c0 (Or.inl hpc)
        · rw [Function.update_noteq (Ne.symm hji)] at hj
          exact Q j c hj
      · intro j c r hj
        by_cases hji : i = j
        · subst hji; rw [Function.update_same] at hj
          rcases hj with h | h | h <;> simp at h
        · rw [Function.update_noteq (Ne.symm hji)] at hj
          exact P j c r hj
      · intro j c r hj
        by_cases hji : i = j
        · subst hji; rw [Function.update_same] at hj; simp at hj
        · rw [Function.update_noteq (Ne.symm hji)] at hj
          exact W j c r hj
  | endFetchOk i c0 e hpc =>
      refine ⟨?_, E, ?_, ?_, ?_, ?_, ?_, ?_⟩ <;> (try dsimp only)
      · intro c hc
        obtain ⟨h1, h2, h3⟩ := F c hc
        refine ⟨h1, h2, fun j => ?_⟩
        by_cases hji : i = j
        · subst hji; rw [Function.update_same]
          have hold := h3 i
          rw [hpc] at hold
          simpa [CallerPc.chanOf] using hold
        · rw [Function.update_noteq (Ne.symm hji)]; exact h3 j
      · intro j k cj ck hj hk
        by_cases hji : i = j
        · subst hji; rw [Function.update_same] at hj
          simp only [CallerPc.activeOwnerOf, Option.some.injEq] at hj
          by_cases hki : i = k
          · subst hki; rfl
          · rw [Function.update_noteq (Ne.symm hki)] at hk
            exact U i k cj ck (by rw [hpc, ← hj]; rfl) hk
        · rw [Function.update_noteq (Ne.symm hji)] at hj
          by_cases hki : i = k
          · subst hki; rw [Function.update_same] at hk
            simp only [CallerPc.activeOwnerOf, Option.some.injEq] at hk
            exact U j i cj ck hj (by rw [hpc, ← hk]; rfl)
          · rw [Function.update_noteq (Ne.symm hki)] at hk
            exact U j k cj ck hj hk
      · intro j c hj
        by_cases hji : i = j
        · subst hji; rw [Function.update_same] at hj
          simp only [CallerPc.activeOwnerOf, Option.some.injEq] at hj
          exact O i c (by rw [hpc, ← hj]; rfl)
        · rw [Function.update_noteq (Ne.symm hji)] at hj
          exact O j c hj
      · intro j c r hj
        by_cases hji : i = j
        · subst hji; rw [Function.update_same] at hj; simp at hj
        · rw [Function.update_noteq (Ne.symm hji)] at hj
          exact R j c r hj
      · intro j c hj
        by_cases hji : i = j
        · subst hji; rw [Function.update_same] at hj
          have hc : c0 = c := by
            rcases hj with h | h | ⟨r, h⟩ <;> simp at h <;> (first | exact h | exact h.1)
          subst hc
          exact Q i c0 (Or.inr (Or.inl hpc))
        · rw [Function.update_noteq (Ne.symm hji)] at hj
          exact Q j c hj
      · intro j c r hj
        by_cases hji : i = j
        · subst hji; rw [Function.update_same] at hj
          rcases hj with h | h | h <;> simp at h
        · rw [Function.update_noteq (Ne.symm hji)] at hj
          exact P j c r hj
      · intro j c r hj
        by_cases hji : i = j
        · subst hji; rw [Function.update_same] at hj; simp at hj
        · rw [Function.update_noteq (Ne.symm hji)] at hj
          exact W j c r hj
  | endFetchErr i c0 m hpc =>
      refine ⟨?_, E, ?_, ?_, ?_, ?_, ?_, ?_⟩ <;> (try dsimp only)
      · intro c hc
        obtain ⟨h1, h2, h3⟩ := F c hc
        refine ⟨h1, h2, fun j => ?_⟩
        by_cases hji : i = j
        · subst hji; rw [Function.update_same]
          have hold := h3 i
          rw [hpc] at hold
          simpa [CallerPc.chanOf] using hold
        · rw [Function.update_noteq (Ne.symm hji)]; exact h3 j
      · intro j k cj ck hj hk
        by_cases hji : i = j
        · subst hji; rw [Function.update_same] at hj
          simp only [CallerPc.activeOwnerOf, Option.some.injEq] at hj
          by_cases hki : i = k
          · subst hki; rfl
          · rw [Function.update_noteq (Ne.symm hki)] at hk
            exact U i k cj ck (by rw [hpc, ← hj]; rfl) hk
        · rw [Function.update_noteq (Ne.symm hji)] at hj
          by_cases hki : i = k
          · subst hki; rw [Function.update_same] at hk
            simp only [CallerPc.activeOwnerOf, Option.some.injEq] at hk
            exact U j i cj ck hj (by rw [hpc, ← hk]; rfl)
          · rw [Function.update_noteq (Ne.symm hki)] at hk
            exact U j k cj ck hj hk
      · intro j c hj
        by_cases hji : i = j
        · subst hji; rw [Function.update_same] at hj
          simp only [CallerPc.activeOwnerOf, Option.some.injEq] at hj
          exact O i c (by rw [hpc, ← hj]; rfl)
        · rw [Function.update_noteq (Ne.symm hji)] at hj
          exact O j c hj
      · intro j c r hj
        by_cases hji : i = j
        · subst hji; rw [Function.update_same] at hj; simp at hj
        · rw [Function.update_noteq (Ne.symm hji)] at hj
          exact R j c r hj
      · intro j c hj
        by_cases hji : i = j
        · subst hji; rw [Function.update_same] at hj
          have hc : c0 = c := by
            rcases hj with h | h | ⟨r, h⟩ <;> simp at h <;> (first | exact h | exact h.1)
          subst hc
          exact Q i c0 (Or.inr (Or.inl hpc))
        · rw [Function.update_noteq (Ne.symm hji)] at hj
          exact Q j c hj
      · intro j c r hj
        by_cases hji : i = j
        · subst hji; rw [Function.update_same] at hj
          rcases hj with h | h | h <;> simp at h
        · rw [Function.update_noteq (Ne.symm hji)] at hj
          exact P j c r hj
      · intro j c r hj
        by_cases hji : i = j
        · subst hji; rw [Function.update_same] at hj; simp at hj
        · rw [Function.update_noteq (Ne.symm hji)] at hj
          exact W j c r hj
  | publish i c0 r0 hpc =>
      have href : c0 < s.nextChan := by
        by_contra hge
        exact (F c0 (Nat.le_of_not_lt hge)).2.2 i (by rw [hpc]; simp [CallerPc.chanOf])
      refine ⟨?_, E, ?_, ?_, ?_, ?_, ?_, ?_⟩ <;> (try dsimp only)
      · intro c hc
        obtain ⟨h1, h2, h3⟩ := F c hc
        refine ⟨?_, h2, fun j => ?_⟩
        · rw [Function.update_noteq (by omega : c ≠ c0)]
          exact h1
        · by_cases hji : i = j
          · subst hji; rw [Function.update_same]
            have hold := h3 i
            rw [hpc] at hold
            simpa [CallerPc.chanOf] using hold
          · rw [Function.update_noteq (Ne.symm hji)]; exact h3 j
      · intro j k cj ck hj hk
        by_cases hji : i = j
        · subst hji; rw [Function.update_same] at hj
          simp only [CallerPc.activeOwnerOf, Option.some.injEq] at hj
          by_cases hki : i = k
          · subst hki; rfl
          · rw [Function.update_noteq (Ne.symm hki)] at hk
            exact U i k cj ck (by rw [hpc, ← hj]; rfl) hk
        · rw [Function.update_noteq (Ne.symm hji)] at hj
          by_cases hki : i = k
          · subst hki; rw [Function.update_same] at hk
            simp only [CallerPc.activeOwnerOf, Option.some.injEq] at hk
            exact U j i cj ck hj (by rw [hpc, ← hk]; rfl)
          · rw [Function.update_noteq (Ne.symm hki)] at hk
            exact U j k cj ck hj hk
      · intro j c hj
        by_cases hji : i = j
        · subst hji; rw [Function.update_same] at hj
          simp only [CallerPc.activeOwnerOf, Option.some.injEq] at hj
          obtain ⟨ho1, ho2⟩ := O i c0 (by rw [hpc]; rfl)
          refine ⟨?_, ?_⟩
          · rw [← hj]; exact ho1
          · rw [← hj, Function.update_same]; exact ho2
        · rw [Function.update_noteq (Ne.symm hji)] at hj
          obtain ⟨ho1, ho2⟩ := O j c hj
          refine ⟨ho1, ?_⟩
          by_cases hcc : c = c0
          · subst hcc; rw [Function.update_same]; exact ho2
          · rw [Function.update_noteq hcc]; exact ho2
      · intro j c r hj
        by_cases hji : i = j
        · subst hji; rw [Function.update_same] at hj; simp at hj
        · rw [Function.update_noteq (Ne.symm hji)] at hj
          exact R j c r hj
      · intro j c hj
        by_cases hji : i = j
        · subst hji; rw [Function.update_same] at hj
          simp [CallerPc.prePublishOn] at hj
        · rw [Function.update_noteq (Ne.symm hji)] at hj
          by_cases hcc : c = c0
          · exact absurd (U j i c c0 (CallerPc.prePublish_active _ _ hj)
              (by rw [hpc]; rfl)).symm hji
          · rw [Function.update_noteq hcc]
            exact Q j c hj
      · intro j c r hj
        by_cases hji : i = j
        · subst hji; rw [Function.update_same] at hj
          rcases hj with h | h | h
          · rw [CallerPc.published.injEq] at h
            obtain ⟨hc, hr⟩ := h
            subst hc; subst hr
            rw [Function.update_same]
          · simp at h
          · simp at h
        · rw [Function.update_noteq (Ne.symm hji)] at hj
          by_cases hcc : c = c0
          · have hnone := Q i c0 (Or.inr (Or.inr ⟨r0, hpc⟩))
            have hsome := P j c r hj
            rw [hcc, hnone] at hsome
            exact absurd hsome (by simp)
          · rw [Function.update_noteq hcc]
            exact P j c r hj
      · intro j c r hj
        by_cases hji : i = j
        · subst hji; rw [Function.update_same] at hj; simp at hj
        · rw [Function.update_noteq (Ne.symm hji)] at hj
          by_cases hcc : c = c0
          · rcases W j c r hj with hleft | ⟨_, _, hcl⟩
            · have hnone := Q i c0 (Or.inr (Or.inr ⟨r0, hpc⟩))
              rw [hcc, hnone] at hleft
              exact absurd hleft (by simp)
            · have hopen := (O i c0 (by rw [hpc]; rfl)).2
              rw [hcc, hopen] at hcl
              exact absurd hcl (by simp)
          · rw [Function.update_noteq hcc]
            exact W j c r hj
  | removeEntry i c0 r0 hpc =>
      refine ⟨?_, ?_, ?_, ?_, ?_, ?_, ?_, ?_⟩ <;> (try dsimp only)
      · intro c hc
        obtain ⟨h1, h2, h3⟩ := F c hc
        refine ⟨h1, by simp, fun j => ?_⟩
        by_cases hji : i = j
        · subst hji; rw [Function.update_same]
          have hold := h3 i
          rw [hpc] at hold
          simpa [CallerPc.chanOf] using hold
        · rw [Function.update_noteq (Ne.symm hji)]; exact h3 j
      · intro c h
        simp at h
      · intro j k cj ck hj hk
        by_cases hji : i = j
        · subst hji; rw [Function.update_same] at hj
          simp [CallerPc.activeOwnerOf] at hj
        · rw [Function.update_noteq (Ne.symm hji)] at hj
          by_cases hki : i = k
          · subst hki; rw [Function.update_same] at hk
            simp [CallerPc.activeOwnerOf] at hk
          · rw [Function.update_noteq (Ne.symm hki)] at hk
            exact U j k cj ck hj hk
      · intro j c hj
        by_cases hji : i = j
        · subst hji; rw [Function.update_same] at hj
          simp [CallerPc.activeOwnerOf] at hj
        · rw [Function.update_noteq (Ne.symm hji)] at hj
          exact absurd (U j i c c0 hj (by rw [hpc]; rfl)).symm hji
      · intro j c r hj
        simp
      · intro j c hj
        by_cases hji : i = j
        · subst hji; rw [Function.update_same] at hj
          simp [CallerPc.prePublishOn] at hj
        · rw [Function.update_noteq (Ne.symm hji)] at hj
          exact Q j c hj
      · intro j c r hj
        by_cases hji : i = j
        · subst hji; rw [Function.update_same] at hj
          rcases hj with h | h | h
          · simp at h
          · rw [CallerPc.removed.injEq] at h
            obtain ⟨hc, hr⟩ := h
            rw [← hc, ← hr]
            exact P i c0 r0 (Or.inl hpc)
          · simp at h
        · rw [Function.update_noteq (Ne.symm hji)] at hj
          exact P j c r hj
      · intro j c r hj
        by_cases hji : i = j
        · subst hji; rw [Function.update_same] at hj; simp at hj
        · rw [Function.update_noteq (Ne.symm hji)] at hj
          exact W j c r hj
  | dropTx i c0 r0 hpc =>
      have href : c0 < s.nextChan := by
        by_contra hge
        exact (F c0 (Nat.le_of_not_lt hge)).2.2 i (by rw [hpc]; simp [CallerPc.chanOf])
      refine ⟨?_, E, ?_, ?_, ?_, ?_, ?_, ?_⟩ <;> (try dsimp only)
      · intro c hc
        obtain ⟨h1, h2, h3⟩ := F c hc
        refine ⟨?_, h2, fun j => ?_⟩
        · rw [Function.update_noteq (by omega : c ≠ c0)]
          exact h1
        · by_cases hji : i = j
          · subst hji; rw [Function.update_same]
            have hold := h3 i
            rw [hpc] at hold
            simpa [CallerPc.chanOf] using hold
          · rw [Function.update_noteq (Ne.symm hji)]; exact h3 j
      · intro j k cj ck hj hk
        by_cases hji : i = j
        · subst hji; rw [Function.update_same] at hj
          simp [CallerPc.activeOwnerOf] at hj
        · rw [Function.update_noteq (Ne.symm hji)] at hj
          by_cases hki : i = k
          · subst hki; rw [Function.update_same] at hk
            simp [CallerPc.activeOwnerOf] at hk
          · rw [Function.update_noteq (Ne.symm hki)] at hk
            exact U j k cj ck hj hk
      · intro j c hj
        by_cases hji : i = j
        · subst hji; rw [Function.update_same] at hj
          simp [CallerPc.activeOwnerOf] at hj
        · rw [Function.update_noteq (Ne.symm hji)] at hj
          obtain ⟨ho1, ho2⟩ := O j c hj
          by_cases hcc : c = c0
          · rw [hcc] at ho1
            exact absurd ho1 (R i c0 r0 hpc)
          · rw [Function.update_noteq hcc]
            exact ⟨ho1, ho2⟩
      · intro j c r hj
        by_cases hji : i = j
        · subst hji; rw [Function.update_same] at hj; simp at hj
        · rw [Function.update_noteq (Ne.symm hji)] at hj
          exact R j c r hj
      · intro j c hj
        by_cases hji : i = j
        · subst hji; rw [Function.update_same] at hj
          simp [CallerPc.prePublishOn] at hj
        · rw [Function.update_noteq (Ne.symm hji)] at hj
          by_cases hcc : c = c0
          · rw [hcc] at hj ⊢
            rw [Function.update_same]
            exact Q j c0 hj
          · rw [Function.update_noteq hcc]
            exact Q j c hj
      · intro j c r hj
        by_cases hji : i = j
        · subst hji; rw [Function.update_same] at hj
          rcases hj with h | h | h
          · simp at h
          · simp at h
          · rw [CallerPc.done.injEq, DoneVia.led.injEq] at h
            obtain ⟨hr, hc⟩ := h
            rw [← hc, ← hr, Function.update_same]
            exact P i c0 r0 (Or.inr (Or.inl hpc))
        · rw [Function.update_noteq (Ne.symm hji)] at hj
          by_cases hcc : c = c0
          · rw [hcc] at hj ⊢
            rw [Function.update_same]
            exact P j c0 r hj
          · rw [Function.update_noteq hcc]
            exact P j c r hj
      · intro j c r hj
        by_cases hji : i = j
        · subst hji; rw [Function.update_same] at hj; simp at hj
        · rw [Function.update_noteq (Ne.symm hji)] at hj
          rcases W j c r hj with hleft | ⟨hr, hpub, hcl⟩
          · left
            by_cases hcc : c = c0
            · rw [hcc] at hleft ⊢
              rw [Function.update_same]
              exact hleft
            · rw [Function.update_noteq hcc]; exact hleft
          · right
            refine ⟨hr, ?_, ?_⟩
            · by_cases hcc : c = c0
              · rw [hcc] at hpub ⊢
                rw [Function.update_same]
                exact hpub
              · rw [Function.update_noteq hcc]; exact hpub
            · by_cases hcc : c = c0
              · rw [hcc, Function.update_same]
              · rw [Function.update_noteq hcc]; exact hcl
  | waiterGot i c0 r0 hpc hpub =>
      refine ⟨?_, E, ?_, ?_, ?_, ?_, ?_, ?_⟩ <;> (try dsimp only)
      · intro c hc
        obtain ⟨h1, h2, h3⟩ := F c hc
        refine ⟨h1, h2, fun j => ?_⟩
        by_cases hji : i = j
        · subst hji; rw [Function.update_same]
          have hold := h3 i
          rw [hpc] at hold
          simpa [CallerPc.chanOf] using hold
        · rw [Function.update_noteq (Ne.symm hji)]; exact h3 j
      · intro j k cj ck hj hk
        by_cases hji : i = j
        · subst hji; rw [Function.update_same] at hj
          simp [CallerPc.activeOwnerOf] at hj
        · rw [Function.update_noteq (Ne.symm hji)] at hj
          by_cases hki : i = k
          · subst hki; rw [Function.update_same] at hk
            simp [CallerPc.activeOwnerOf] at hk
          · rw [Function.update_noteq (Ne.symm hki)] at hk
            exact U j k cj ck hj hk
      · intro j c hj
        by_cases hji : i = j
        · subst hji; rw [Function.update_same] at hj
          simp [CallerPc.activeOwnerOf] at hj
        · rw [Function.update_noteq (Ne.symm hji)] at hj
          exact O j c hj
      · intro j c r hj
        by_cases hji : i = j
        · subst hji; rw [Function.update_same] at hj; simp at hj
        · rw [Function.update_noteq (Ne.symm hji)] at hj
          exact R j c r hj
      · intro j c hj
        by_cases hji : i = j
        · subst hji; rw [Function.update_same] at hj
          simp [CallerPc.prePublishOn] at hj
        · rw [Function.update_noteq (Ne.symm hji)] at hj
          exact Q j c hj
      · intro j c r hj
        by_cases hji : i = j
        · subst hji; rw [Function.update_same] at hj
          rcases hj with h | h | h <;> simp at h
        · rw [Function.update_noteq (Ne.symm hji)] at hj
          exact P j c r hj
      · intro j c r hj
        by_cases hji : i = j
        · subst hji; rw [Function.update_same] at hj
          rw [CallerPc.done.injEq, DoneVia.waited.injEq] at hj
          obtain ⟨hr, hc⟩ := hj
          subst hr; subst hc
          exact Or.inl hpub
        · rw [Function.update_noteq (Ne.symm hji)] at hj
          exact W j c r hj
  | waiterClosed i c0 hpc hpub hcl =>
      refine ⟨?_, E, ?_, ?_, ?_, ?_, ?_, ?_⟩ <;> (try dsimp only)
      · intro c hc
        obtain ⟨h1, h2, h3⟩ := F c hc
        refine ⟨h1, h2, fun j => ?_⟩
        by_cases hji : i = j
        · subst hji; rw [Function.update_same]
          have hold := h3 i
          rw [hpc] at hold
          simpa [CallerPc.chanOf] using hold
        · rw [Function.update_noteq (Ne.symm hji)]; exact h3 j
      · intro j k cj ck hj hk
        by_cases hji : i = j
        · subst hji; rw [Function.update_same] at hj
          simp [CallerPc.activeOwnerOf] at hj
        · rw [Function.update_noteq (Ne.symm hji)] at hj
          by_cases hki : i = k
          · subst hki; rw [Function.update_same] at hk
            simp [CallerPc.activeOwnerOf] at hk
          · rw [Function.update_noteq (Ne.symm hki)] at hk
            exact U j k cj ck hj hk
      · intro j c hj
        by_cases hji : i = j
        · subst hji; rw [Function.update_same] at hj
          simp [CallerPc.activeOwnerOf] at hj
        · rw [Function.update_noteq (Ne.symm hji)] at hj
          exact O j c hj
      · intro j c r hj
        by_cases hji : i = j
        · subst hji; rw [Function.update_same] at hj; simp at hj
        · rw [Function.update_noteq (Ne.symm hji)] at hj
          exact R j c r hj
      · intro j c hj
        by_cases hji : i = j
        · subst hji; rw [Function.update_same] at hj
          simp [CallerPc.prePublishOn] at hj
        · rw [Function.update_noteq (Ne.symm hji)] at hj
          exact Q j c hj
      · intro j c r hj
        by_cases hji : i = j
        · subst hji; rw [Function.update_same] at hj
          rcases hj with h | h | h <;> simp at h
        · rw [Function.update_noteq (Ne.symm hji)] at hj
          exact P j c r hj
      · intro j c r hj
        by_cases hji : i = j
        · subst hji; rw [Function.update_same] at hj
          rw [CallerPc.done.injEq, DoneVia.waited.injEq] at hj
          obtain ⟨hr, hc⟩ := hj
          subst hr; subst hc
          exact Or.inr ⟨rfl, hpub, hcl⟩
        · rw [Function.update_noteq (Ne.symm hji)] at hj
          exact W j c r hj
  | cancelFetch i c0 hpc =>
      have href : c0 < s.nextChan := by
        by_contra hge
        exact (F c0 (Nat.le_of_not_lt hge)).2.2 i (by rw [hpc]; simp [CallerPc.chanOf])
      refine ⟨?_, E, ?_, ?_, ?_, ?_, ?_, ?_⟩ <;> (try dsimp only)
      · intro c hc
        obtain ⟨h1, h2, h3⟩ := F c hc
        refine ⟨?_, h2, fun j => ?_⟩
        · rw [Function.update_noteq (by omega : c ≠ c0)]
          exact h1
        · by_cases hji : i = j
          · subst hji; rw [Function.update_same]
            have hold := h3 i
            rw [hpc] at hold
            simpa [CallerPc.chanOf] using hold
          · rw [Function.update_noteq (Ne.symm hji)]; exact h3 j
      · intro j k cj ck hj hk
        by_cases hji : i = j
        · subst hji; rw [Function.update_same] at hj
          simp [CallerPc.activeOwnerOf] at hj
        · rw [Function.update_noteq (Ne.symm hji)] at hj
          by_cases hki : i = k
          · subst hki; rw [Function.update_same] at hk
            simp [CallerPc.activeOwnerOf] at hk
          · rw [Function.update_noteq (Ne.symm hki)] at hk
            exact U j k cj ck hj hk
      · intro j c hj
        by_cases hji : i = j
        · subst hji; rw [Function.update_same] at hj
          simp [CallerPc.activeOwnerOf] at hj
        · rw [Function.update_noteq (Ne.symm hji)] at hj
          obtain ⟨ho1, ho2⟩ := O j c hj
          by_cases hcc : c = c0
          · exact absurd (U j i c c0 hj (by rw [hpc]; rfl)).symm hji
          · rw [Function.update_noteq hcc]
            exact ⟨ho1, ho2⟩
      · intro j c r hj
        by_cases hji : i = j
        · subst hji; rw [Function.update_same] at hj; simp at hj
        · rw [Function.update_noteq (Ne.symm hji)] at hj
          exact R j c r hj
      · intro j c hj
        by_cases hji : i = j
        · subst hji; rw [Function.update_same] at hj
          simp [CallerPc.prePublishOn] at hj
        · rw [Function.update_noteq (Ne.symm hji)] at hj
          by_cases hcc : c = c0
          · rw [hcc] at hj ⊢
            rw [Function.update_same]
            exact Q j c0 hj
          · rw [Function.update_noteq hcc]
            exact Q j c hj
      · intro j c r hj
        by_cases hji : i = j
        · subst hji; rw [Function.update_same] at hj
          rcases hj with h | h | h <;> simp at h
        · rw [Function.update_noteq (Ne.symm hji)] at hj
          by_cases hcc : c = c0
          · rw [hcc] at hj ⊢
            rw [Function.update_same]
            exact P j c0 r hj
          · rw [Function.update_noteq hcc]
            exact P j c r hj
      · intro j c r hj
        by_cases hji : i = j
        · subst hji; rw [Function.update_same] at hj; simp at hj
        · rw [Function.update_noteq (Ne.symm hji)] at hj
          rcases W j c r hj with hleft | ⟨hr, hpub, hcl⟩
          · left
            by_cases hcc : c = c0
            · rw [hcc] at hleft ⊢
              rw [Function.update_same]
              exact hleft
            · rw [Function.update_noteq hcc]; exact hleft
          · right
            refine ⟨hr, ?_, ?_⟩
            · by_cases hcc : c = c0
              · rw [hcc] at hpub ⊢
                rw [Function.update_same]
                exact hpub
              · rw [Function.update_noteq hcc]; exact hpub
            · by_cases hcc : c = c0
              · rw [hcc, Function.update_same]
              · rw [Function.update_noteq hcc]; exact hcl

/-- Every reachable state satisfies the invariant. -/
theorem sfInv_reachable {s : SFState} (h : SFReachable s) : SFInv s := by
  unfold SFReachable at h
  induction h with
  | refl => exact sfInv_init
  | tail hsteps hstep ih => exact sfInv_step hstep ih

/-- Claim C3 (counterexample): the claim asserts that with no valid cache
entry, `N` concurrent `get_or_fetch` calls for one URL perform the
underlying fetch at most once and all receive an identical result.  In the
interleaving where both callers pass the cache check, the first completes
its whole leader path (failed fetch, publish, remove) before the second
takes the inflight lock, the second caller becomes a new leader and
fetches again: a reachable state has two fetches. -/
theorem single_flight_counterexample :
    ∃ s : SFState, SFReachable s ∧ s.fetchCount = 2 := by
  have h0 : SFReachable sfInit := Relation.ReflTransGen.refl
  have h1 : SFReachable _ := h0.tail (sfStep.missed sfInit 0 rfl rfl)
  have h2 : SFReachable _ := h1.tail (sfStep.missed _ 1 rfl rfl)
  have h3 : SFReachable _ := h2.tail (sfStep.insertLead _ 0 rfl rfl)
  have h4 : SFReachable _ := h3.tail (sfStep.startFetch _ 0 0 rfl)
  have h5 : SFReachable _ := h4.tail (sfStep.endFetchErr _ 0 0 "Fetch failed: boom" rfl)
  have h6 : SFReachable _ := h5.tail (sfStep.publish _ 0 0 (Except.error "Fetch failed: boom") rfl)
  have h7 : SFReachable _ := h6.tail (sfStep.removeEntry _ 0 0 (Except.error "Fetch failed: boom") rfl)
  have h8 : SFReachable _ := h7.tail (sfStep.dropTx _ 0 0 (Except.error "Fetch failed: boom") rfl)
  have h9 : SFReachable _ := h8.tail (sfStep.insertLead _ 1 rfl rfl)
  have h10 : SFReachable _ := h9.tail (sfStep.startFetch _ 1 1 rfl)
  exact ⟨_, h10, rfl⟩

/-- Claim C3 (amended): in every reachable state of the single-flight
system, (a) at most one HTTP fetch is in flight at any time — callers in
the fetching state coincide; (b) every caller that joined an inflight
fetch as a waiter receives a result identical to the result its
generation's leader returns; (c) a waiter that observes the inflight
channel closed without a published value receives the generic
`Inflight request dropped` error. -/
theorem single_flight_spec :
    ∀ s : SFState, SFReachable s →
      (∀ i j ci cj, s.callers i = CallerPc.fetching ci →
        s.callers j = CallerPc.fetching cj → i = j) ∧
      (∀ i j c r r', s.callers i = CallerPc.done r (DoneVia.waited c) →
        s.callers j = CallerPc.done r' (DoneVia.led c) → r = r') ∧
      (∀ i c r, s.callers i = CallerPc.done r (DoneVia.waited c) →
        (s.channels c).published = none → r = Except.error inflightDroppedMsg) := by
  intro s hreach
  have hinv := sfInv_reachable hreach
  refine ⟨?_, ?_, ?_⟩
  · intro i j ci cj hi hj
    exact hinv.U i j ci cj (by rw [hi]; rfl) (by rw [hj]; rfl)
  · intro i j c r r' hi hj
    have hp := hinv.P j c r' (Or.inr (Or.inr hj))
    rcases hinv.W i c r hi with hleft | ⟨_, hnone, _⟩
    · rw [hp] at hleft
      exact (Option.some.inj hleft).symm
    · rw [hp] at hnone
      exact absurd hnone (by simp)
  · intro i c r hi hnone
    rcases hinv.W i c r hi with hleft | ⟨hr, _, _⟩
    · rw [hnone] at hleft
      exact absurd hleft (by simp)
    · exact hr

/-- Claim C3 witness: a concrete two-caller run in which caller 0 leads a
successful fetch and caller 1 waits; the waiter's result provably equals
the leader's. -/
theorem single_flight_spec_witness :
    ∃ s : SFState, SFReachable s ∧
      s.callers 1 = CallerPc.done (Except.ok ⟨"p.dat", "image/png"⟩) (DoneVia.waited 0) ∧
      s.callers 0 = CallerPc.done (Except.ok ⟨"p.dat", "image/png"⟩) (DoneVia.led 0) ∧
      (∀ r r', s.callers 1 = CallerPc.done r (DoneVia.waited 0) →
        s.callers 0 = CallerPc.done r' (DoneVia.led 0) → r = r') := by
  have h0 : SFReachable sfInit := Relation.ReflTransGen.refl
  have h1 : SFReachable _ := h0.tail (sfStep.missed sfInit 0 rfl rfl)
  have h2 : SFReachable _ := h1.tail (sfStep.missed _ 1 rfl rfl)
  have h3 : SFReachable _ := h2.tail (sfStep.insertLead _ 0 rfl rfl)
  have h4 : SFReachable _ := h3.tail (sfStep.join _ 1 0 rfl rfl)
  have h5 : SFReachable _ := h4.tail (sfStep.startFetch _ 0 0 rfl)
  have h6 : SFReachable _ := h5.tail (sfStep.endFetchOk _ 0 0 ⟨"p.dat", "image/png"⟩ rfl)
  have h7 : SFReachable _ := h6.tail
    (sfStep.publish _ 0 0 (Except.ok ⟨"p.dat", "image/png"⟩) rfl)
  have h8 : SFReachable _ := h7.tail
    (sfStep.waiterGot _ 1 0 (Except.ok ⟨"p.dat", "image/png"⟩) rfl rfl)
  have h9 : SFReachable _ := h8.tail
    (sfStep.removeEntry _ 0 0 (Except.ok ⟨"p.dat", "image/png"⟩) rfl)
  have h10 : SFReachable _ := h9.tail
    (sfStep.dropTx _ 0 0 (Except.ok ⟨"p.dat", "image/png"⟩) rfl)
  refine ⟨_, h10, rfl, rfl, ?_⟩
  intro r r' hw hl
  exact (single_flight_spec _ h10).2.1 1 0 0 r r' hw hl

end Notedeck
